import Mathlib

/-!
Verification of the gox transpiler (a Go + JSX source-to-source compiler)
against its natural-language specification.  The Go sources are shallowly
embedded: Go strings become `List Char` (the Go code iterates runes almost
everywhere; the few places where it inspects raw bytes are modelled through
an explicit UTF-8 first-byte function), Go maps become association lists with
most-recent-entry-wins lookup, and the mutually recursive lexer / parser /
generator loops are given an explicit fuel argument (the Go loops consume
input on every iteration; out of fuel the models return the partial result
built so far, and theorems either hold for every fuel or state the concrete
fuel bound they need).
-/

namespace Gox

/-- Go strings, viewed as their sequence of runes. -/
abbrev GoStr := List Char

/-- The double-quote character. -/
def chQuote : Char := Char.ofNat 34

/-- The single-quote character. -/
def chSquote : Char := Char.ofNat 39

/-- The backtick character. -/
def chBacktick : Char := Char.ofNat 96

/-- The opening curly-brace character. -/
def chLBrace : Char := Char.ofNat 123

/-- The closing curly-brace character. -/
def chRBrace : Char := Char.ofNat 125

/-- `unicode.IsUpper` restricted to code points below 0x100.  The generator
and the lexer only ever apply the Go predicate to a single byte cast to a
rune, so this Latin-1 fragment is exact at every modelled call site:
uppercase Latin-1 letters are A-Z, À-Ö and Ø-Þ. -/
def latin1IsUpper (v : Nat) : Bool :=
  (65 ≤ v && v ≤ 90) || (0xC0 ≤ v && v ≤ 0xD6) || (0xD8 ≤ v && v ≤ 0xDE)

/-- `unicode.IsLetter` restricted to code points below 0x100 (exact on that
range): A-Z, a-z, ª, µ, º, À-Ö, Ø-ö, ø-ÿ. -/
def latin1IsLetter (v : Nat) : Bool :=
  (65 ≤ v && v ≤ 90) || (97 ≤ v && v ≤ 122) ||
  v == 0xAA || v == 0xB5 || v == 0xBA ||
  (0xC0 ≤ v && v ≤ 0xD6) || (0xD8 ≤ v && v ≤ 0xF6) || (0xF8 ≤ v && v ≤ 0xFF)

/-- `unicode.IsLetter` on a full rune.  Exact below 0x100; code points above
0xFF are treated as letters (the repository's own test inputs, and every
input exercised in this development, keep identifiers within Latin-1, where
this model is exact). -/
def goIsLetter (c : Char) : Bool :=
  if c.toNat < 0x100 then latin1IsLetter c.toNat else true

/-- `unicode.IsDigit` (exact on ASCII; no modelled input uses exotic digits). -/
def goIsDigit (c : Char) : Bool :=
  48 ≤ c.toNat && c.toNat ≤ 57

/-- The first byte of the UTF-8 encoding of a rune.  Go code such as
`tag[0]` or `input[pos+1]` reads this byte directly. -/
def utf8FirstByte (c : Char) : Nat :=
  let v := c.toNat
  if v < 0x80 then v
  else if v < 0x800 then 0xC0 + v / 64
  else if v < 0x10000 then 0xE0 + v / 4096
  else 0xF0 + v / 262144

/-- `utf8.RuneLen` of a rune, with Go's negative-result fallback to 1 applied
(Lean's `Char` cannot hold the invalid code points where Go would return -1,
so the fallback never fires and `Char.utf8Size` is exact). -/
def goRuneLen (c : Char) : Nat := c.utf8Size

/-- `len(s)` for a Go string: its length in bytes. -/
def utf8Len (s : GoStr) : Nat := (s.map Char.utf8Size).sum

/-- `unicode.IsSpace` restricted to Latin-1 (exact there): space, \t, \n,
\v, \f, \r, U+0085 and U+00A0. -/
def goIsSpace (c : Char) : Bool :=
  c == ' ' || c == '\t' || c == '\n' || c == Char.ofNat 11 ||
  c == Char.ofNat 12 || c == '\r' || c == Char.ofNat 0x85 || c == Char.ofNat 0xA0

/-- `strings.TrimSpace`. -/
def goTrimSpace (s : GoStr) : GoStr :=
  (s.dropWhile goIsSpace).reverse.dropWhile goIsSpace |>.reverse

/-- Decimal rendering of a natural number, as used by `fmt` verbs `%d`. -/
def natToStr (n : Nat) : GoStr := (toString n).data

/-- One escaped character of `strconv.Quote` (the `%q` verb): quote,
backslash and the common control characters are escaped; every other
character is kept (exact for the printable characters appearing in this
development). -/
def goQuoteChar (c : Char) : GoStr :=
  if c == chQuote then ['\\', chQuote]
  else if c == '\\' then ['\\', '\\']
  else if c == '\n' then ['\\', 'n']
  else if c == '\t' then ['\\', 't']
  else if c == '\r' then ['\\', 'r']
  else [c]

/-- `fmt.Sprintf` with the `%q` verb on a string. -/
def goQuote (s : GoStr) : GoStr :=
  chQuote :: (s.flatMap goQuoteChar) ++ [chQuote]

/-- Does the pattern `p` occur in `s` starting at position `i`? -/
def subAt (s p : GoStr) (i : Nat) : Bool :=
  (s.drop i).take p.length == p

/-- The left-to-right scan behind `indexOfSub`. -/
def indexOfSubGo (s p : GoStr) : Nat → Nat → Option Nat
  | _, 0 => none
  | i, fuel + 1 => if subAt s p i then some i else indexOfSubGo s p (i + 1) fuel

/-- `strings.Index`: position of the first occurrence of `p` in `s`
(`none` for Go's -1). -/
def indexOfSub (s p : GoStr) : Option Nat := indexOfSubGo s p 0 (s.length + 1)

/-- `strings.Contains`. -/
def containsSub (s p : GoStr) : Bool :=
  (indexOfSub s p).isSome

/-! ## SourceMap (sourcemap.go)

`map[uint32]map[uint32]Position` is modelled as an association list of
`(line, column, position)` entries where the most recently added entry for a
key shadows older ones (new entries are consed at the front and lookup takes
the first hit).  The `Index` field of the Go `Position` is always 0 at every
mapping call site (`NewPosition(0, line, col)`) and is never read back, so
positions carry only line and column. -/

/-- A stored source-map position (0-indexed line and column). -/
structure SMPos where
  line : Nat
  column : Nat
deriving DecidableEq, Repr

/-- One direction of a source map: entries `(line, column, mapped position)`,
most recent first. -/
abbrev SMEntries := List (Nat × Nat × SMPos)

/-- Lookup `m[line][col]`: the most recently written entry wins. -/
def smLookup (m : SMEntries) (line col : Nat) : Option SMPos :=
  (m.find? (fun e => e.1 == line && e.2.1 == col)).map (fun e => e.2.2)

/-- Does `m[line]` exist (`lineMap, ok := m[line]`)?  A line map exists in
the Go code exactly when some entry was added on that line. -/
def smHasLine (m : SMEntries) (line : Nat) : Bool :=
  m.any (fun e => e.1 == line)

/-- The bidirectional source map. -/
structure SourceMap where
  sourceFile : GoStr
  targetFile : GoStr
  sourceToTarget : SMEntries
  targetToSource : SMEntries
deriving Repr

/-- `NewSourceMap()`. -/
def NewSourceMap : SourceMap := ⟨[], [], [], []⟩

/-- `AddMapping`: adds the reciprocal pair of entries. -/
def AddMapping (sm : SourceMap) (srcLine srcCol tgtLine tgtCol : Nat) : SourceMap :=
  { sm with
    sourceToTarget := (srcLine, srcCol, ⟨tgtLine, tgtCol⟩) :: sm.sourceToTarget
    targetToSource := (tgtLine, tgtCol, ⟨srcLine, srcCol⟩) :: sm.targetToSource }

/-- A list of `AddMapping` calls `(srcLine, srcCol, tgtLine, tgtCol)`. -/
abbrev MappingCalls := List (Nat × Nat × Nat × Nat)

/-- Apply a sequence of `AddMapping` calls in order. -/
def applyMappings (sm : SourceMap) (calls : MappingCalls) : SourceMap :=
  calls.foldl (fun acc c => AddMapping acc c.1 c.2.1 c.2.2.1 c.2.2.2) sm

/-- The backward-search loop of `TargetPositionFromSource`:
`for c := col; c > 0 && col-c < 5; c--`. -/
def tpfsLoop (m : SMEntries) (line col : Nat) : Nat → Option SMPos
  | 0 => none
  | c + 1 =>
    if col - (c + 1) < 5 then
      match smLookup m line (c + 1) with
      | some p => some ⟨p.line, p.column + (col - (c + 1))⟩
      | none => tpfsLoop m line col c
    else none

/-- `TargetPositionFromSource`. -/
def TargetPositionFromSource (sm : SourceMap) (line col : Nat) : Option SMPos :=
  if smHasLine sm.sourceToTarget line then
    match smLookup sm.sourceToTarget line col with
    | some p => some p
    | none => tpfsLoop sm.sourceToTarget line col col
  else none

/-- The same-line backward-search loop of `SourcePositionFromTarget`:
`for c := col; c > 0; c--`. -/
def spftBack (m : SMEntries) (line : Nat) : Nat → Option SMPos
  | 0 => none
  | c + 1 =>
    match smLookup m line (c + 1) with
    | some p => some p
    | none => spftBack m line c

/-- The live (non-shadowed) entries of `m[line]`, keyed by column. -/
def lineEntries (m : SMEntries) (line : Nat) : List (Nat × SMPos) :=
  go m []
where
  go : SMEntries → List Nat → List (Nat × SMPos)
    | [], _ => []
    | (l, c, p) :: rest, seen =>
      if l == line && !(seen.contains c) then (c, p) :: go rest (c :: seen)
      else go rest (if l == line then c :: seen else seen)

/-- Go's iteration over `m[prevLine]` keeping the highest column
(`if c >= bestCol`): since map keys are unique this returns the entry with
the maximal column, independent of iteration order. -/
def maxColEntry (m : SMEntries) (line : Nat) : Option SMPos :=
  (lineEntries m line).foldl
    (fun acc e =>
      match acc with
      | none => some e
      | some b => if e.1 ≥ b.1 then some e else some b)
    none |>.map (fun e => e.2)

/-- The preceding-lines scan of `SourcePositionFromTarget`:
`for l := line; l > 0; l--` examining `prevLine := l - 1`. -/
def spftPrevLines (m : SMEntries) : Nat → Option SMPos
  | 0 => none
  | l + 1 =>
    match maxColEntry m l with
    | some p => some p
    | none => spftPrevLines m l

/-- `SourcePositionFromTarget`. -/
def SourcePositionFromTarget (sm : SourceMap) (line col : Nat) : Option SMPos :=
  let onLine :=
    if smHasLine sm.targetToSource line then
      match smLookup sm.targetToSource line col with
      | some p => some p
      | none =>
        match spftBack sm.targetToSource line col with
        | some p => some p
        | none => smLookup sm.targetToSource line 0
    else none
  match onLine with
  | some p => some p
  | none => spftPrevLines sm.targetToSource line

/-! ### AddExpression (sourcemap.go lines 75-106) -/

/-- `strings.Split(value, "\n")`, returned as (first line, remaining lines). -/
def splitNl : GoStr → GoStr × List GoStr
  | [] => ([], [])
  | c :: cs =>
    if c == '\n' then ([], (splitNl cs).1 :: (splitNl cs).2)
    else (c :: (splitNl cs).1, (splitNl cs).2)

/-- The `AddMapping` calls made for one line of `AddExpression`: one per
rune, advancing both columns by the rune's UTF-8 width, plus the final
mapping at the line's end position. -/
def lineCalls : GoStr → Nat → Nat → Nat → Nat → MappingCalls
  | [], sl, sc, tl, tc => [(sl, sc, tl, tc)]
  | c :: cs, sl, sc, tl, tc =>
    (sl, sc, tl, tc) :: lineCalls cs sl (sc + goRuneLen c) tl (tc + goRuneLen c)

/-- The per-line loop of `AddExpression`: after the first line both lines
advance and both columns reset to 0. -/
def addExprLines : List GoStr → Nat → Nat → Nat → Nat → MappingCalls
  | [], _, _, _, _ => []
  | l :: rest, sl, sc, tl, tc =>
    lineCalls l sl sc tl tc ++ addExprLines rest (sl + 1) 0 (tl + 1) 0

/-- The full list of `AddMapping` calls made by `AddExpression value`. -/
def addExpressionCalls (value : GoStr) (srcStart tgtStart : SMPos) : MappingCalls :=
  addExprLines ((splitNl value).1 :: (splitNl value).2)
    srcStart.line srcStart.column tgtStart.line tgtStart.column

/-- `AddExpression`. -/
def AddExpression (sm : SourceMap) (value : GoStr) (srcStart tgtStart : SMPos) : SourceMap :=
  applyMappings sm (addExpressionCalls value srcStart tgtStart)

/-- Specification-side description of `AddExpression`, written from the
spec's words as a direct walk over the text (no prior line splitting): one
mapping per rune advancing both columns by the rune's encoded width, one
extra mapping at each line's end, and a newline advances both line counters
and resets both columns to zero. -/
def addExprWalk : GoStr → Nat → Nat → Nat → Nat → MappingCalls
  | [], sl, sc, tl, tc => [(sl, sc, tl, tc)]
  | c :: cs, sl, sc, tl, tc =>
    if c == '\n' then (sl, sc, tl, tc) :: addExprWalk cs (sl + 1) 0 (tl + 1) 0
    else (sl, sc, tl, tc) :: addExprWalk cs sl (sc + goRuneLen c) tl (tc + goRuneLen c)

/-! ## Lexer (lexer.go, token.go)

The lexer is modelled at rune granularity: `pos` counts runes rather than
bytes (the two coincide on ASCII input, and no theorem below reads an
offset of a non-ASCII input), while the two places where the Go code
inspects a raw byte — `rune(l.input[nextPos])` in `isJSXStart` — go through
`utf8FirstByte` explicitly.  Every scanning loop of the Go lexer consumes
at least one character per iteration, so each loop is given the internal
fuel `rest.length + 1`, which can never be exhausted before the loop's own
exit condition fires. -/

/-- Token kinds.  `JSX_SPREAD` is referenced by the lexer; its constant
declaration lives in a repository file not included here. -/
inductive TokenType where
  | EOF | ERROR | GO_CODE
  | JSX_OPEN | JSX_CLOSE | JSX_SLASH | JSX_TAG | JSX_ATTR_NAME
  | JSX_EQUALS | JSX_STRING | JSX_LBRACE | JSX_RBRACE | JSX_TEXT
  | JSX_EXPR | JSX_FRAG_OPEN | JSX_FRAG_CLOSE | JSX_SPREAD
deriving DecidableEq, Repr

/-- A lexical token. -/
structure Token where
  type : TokenType
  value : GoStr
  offset : Nat
  line : Nat
  column : Nat
deriving DecidableEq, Repr

/-- The lexer state: the unconsumed suffix of the input plus the cursor and
mode fields of the Go `Lexer` struct. -/
structure LexState where
  rest : GoStr
  pos : Nat
  line : Nat
  column : Nat
  inJSX : Bool
  jsxDepth : Int
  braceDepth : Int
  inTag : Bool
  inClosingTag : Bool
  sawSlash : Bool
  needTagName : Bool
deriving Repr

/-- `lexer.New`. -/
def newLexer (input : GoStr) : LexState :=
  ⟨input, 0, 1, 1, false, 0, 0, false, false, false, false⟩

/-- `l.peek()`: the rune at the cursor, 0 at end of input. -/
def lpeek (l : LexState) : Char := l.rest.headD (Char.ofNat 0)

/-- `l.peekNext()`: the rune after the cursor's rune. -/
def lpeekNext (l : LexState) : Char := (l.rest.drop 1).headD (Char.ofNat 0)

/-- `l.peekAt(offset)` (only called with ASCII runes before the offset, so
the byte offset equals the rune offset). -/
def lpeekAt (l : LexState) (off : Nat) : Char := (l.rest.drop off).headD (Char.ofNat 0)

/-- `l.advance()`: consume one rune, tracking line and column. -/
def ladvance (l : LexState) : LexState :=
  match l.rest with
  | [] => l
  | c :: rest =>
    if c == '\n' then { l with rest := rest, pos := l.pos + 1, line := l.line + 1, column := 1 }
    else { l with rest := rest, pos := l.pos + 1, column := l.column + 1 }

/-- `l.makeToken`: offset and column step back over the token's value
(Go subtracts the value's byte length from the rune-counted column). -/
def makeToken (l : LexState) (t : TokenType) (v : GoStr) : Token :=
  ⟨t, v, l.pos - v.length, l.line, l.column - utf8Len v⟩

/-- `isIdentStart`. -/
def isIdentStart (c : Char) : Bool := goIsLetter c || c == '_'

/-- `isIdentChar`. -/
def isIdentChar (c : Char) : Bool := goIsLetter c || goIsDigit c || c == '_'

/-- `isJSXStart`: is the cursor at the start of a JSX element?  The Go code
examines the single byte after `<` (`next := rune(l.input[nextPos])`), so
the model classifies the first UTF-8 byte of the following rune. -/
def isJSXStart (l : LexState) : Bool :=
  match l.rest with
  | '<' :: c1 :: rest2 =>
    let next := utf8FirstByte c1
    if next == 62 then true
    else if next == 47 then
      match rest2 with
      | c2 :: _ => utf8FirstByte c2 == 62
      | [] => false
    else isIdentStart (Char.ofNat next)
  | _ => false

/-- `lexGoString`: skip a Go string literal (escape-aware). -/
def lexGoString (l : LexState) : LexState :=
  go (l.rest.length + 1) (ladvance l)
where
  go : Nat → LexState → LexState
    | 0, l => l
    | fuel + 1, l =>
      if l.rest.isEmpty then l
      else if lpeek l == chQuote then ladvance l
      else if lpeek l == '\\' then go fuel (ladvance (ladvance l))
      else go fuel (ladvance l)

/-- `lexGoRune`: skip a Go rune literal (escape-aware). -/
def lexGoRune (l : LexState) : LexState :=
  go (l.rest.length + 1) (ladvance l)
where
  go : Nat → LexState → LexState
    | 0, l => l
    | fuel + 1, l =>
      if l.rest.isEmpty then l
      else if lpeek l == chSquote then ladvance l
      else if lpeek l == '\\' then go fuel (ladvance (ladvance l))
      else go fuel (ladvance l)

/-- `lexGoRawString`: skip a Go raw string literal. -/
def lexGoRawString (l : LexState) : LexState :=
  go (l.rest.length + 1) (ladvance l)
where
  go : Nat → LexState → LexState
    | 0, l => l
    | fuel + 1, l =>
      if l.rest.isEmpty then l
      else if lpeek l == chBacktick then ladvance l
      else go fuel (ladvance l)

/-- `lexGoLineComment`: skip to (not past) the next newline. -/
def lexGoLineComment (l : LexState) : LexState :=
  go (l.rest.length + 1) l
where
  go : Nat → LexState → LexState
    | 0, l => l
    | fuel + 1, l =>
      if l.rest.isEmpty then l
      else if lpeek l == '\n' then l
      else go fuel (ladvance l)

/-- `lexGoBlockComment`: skip past the closing asterisk-slash. -/
def lexGoBlockComment (l : LexState) : LexState :=
  go (l.rest.length + 1) (ladvance (ladvance l))
where
  go : Nat → LexState → LexState
    | 0, l => l
    | fuel + 1, l =>
      if l.rest.isEmpty then l
      else if lpeek l == '*' && lpeekNext l == '/' then ladvance (ladvance l)
      else go fuel (ladvance l)

/-- `lexJSXOpen`: handle `<` at the start of a JSX element or fragment. -/
def lexJSXOpen (l : LexState) : Token × LexState :=
  let start := l.pos
  let l1 := ladvance l
  if lpeek l1 == '>' then
    let l2 := ladvance l1
    let l2 := { l2 with inTag := false, jsxDepth := l2.jsxDepth + 1 }
    (⟨.JSX_FRAG_OPEN, ['<', '>'], start, l2.line, l2.column - 2⟩, l2)
  else if lpeek l1 == '/' then
    let l2 := ladvance l1
    if lpeek l2 == '>' then
      let l3 := ladvance l2
      let d := l3.jsxDepth - 1
      let l3 := { l3 with jsxDepth := d, inJSX := if d == 0 then false else l3.inJSX }
      (⟨.JSX_FRAG_CLOSE, ['<', '/', '>'], start, l3.line, l3.column - 3⟩, l3)
    else
      let l2 := { l2 with inTag := true, inClosingTag := true, needTagName := true }
      (⟨.JSX_OPEN, ['<', '/'], start, l2.line, l2.column - 2⟩, l2)
  else
    let l1 := { l1 with inTag := true, needTagName := true, jsxDepth := l1.jsxDepth + 1 }
    (⟨.JSX_OPEN, ['<'], start, l1.line, l1.column - 1⟩, l1)

/-- The scanning loop of `lexJSXIdentifier` (hyphens allowed). -/
def lexJSXIdentifierLoop : Nat → LexState → GoStr → GoStr × LexState
  | 0, l, acc => (acc.reverse, l)
  | fuel + 1, l, acc =>
    match l.rest with
    | [] => (acc.reverse, l)
    | c :: _ =>
      if isIdentChar c || c == '-' then lexJSXIdentifierLoop fuel (ladvance l) (c :: acc)
      else (acc.reverse, l)

/-- `lexJSXIdentifier`: a JSX tag or attribute name. -/
def lexJSXIdentifier (l : LexState) (t : TokenType) : Token × LexState :=
  let r := lexJSXIdentifierLoop (l.rest.length + 1) l []
  (⟨t, r.1, l.pos, l.line, l.column⟩, r.2)

/-- The scanning loop of `lexJSXString` (backslash-quote aware). -/
def lexJSXStringLoop : Nat → LexState → GoStr → GoStr × LexState
  | 0, l, acc => (acc, l)
  | fuel + 1, l, acc =>
    if l.rest.isEmpty then (acc, l)
    else if lpeek l == chQuote then (acc, l)
    else if lpeek l == '\\' && lpeekNext l == chQuote then
      let l1 := ladvance l
      lexJSXStringLoop fuel (ladvance l1) (lpeek l1 :: '\\' :: acc)
    else lexJSXStringLoop fuel (ladvance l) (lpeek l :: acc)

/-- `lexJSXString`: a double-quoted attribute value; the token's value
excludes the surrounding quotes (`input[start+1 : pos-1]`, which on an
unterminated string drops its final consumed rune). -/
def lexJSXString (l : LexState) : Token × LexState :=
  let r := lexJSXStringLoop (l.rest.length + 1) (ladvance l) []
  let l1 := r.2
  let value := if l1.rest.isEmpty then r.1.reverse.dropLast else r.1.reverse
  (⟨.JSX_STRING, value, l.pos, l.line, l.column⟩, ladvance l1)

/-- The inner tag-end scan of `lexNestedJSX` for an opening tag: advance to
`>` (returning `false`) or past a self-closing `/>` (returning `true`). -/
def lexNestedJSXScanTagEnd : Nat → LexState → LexState × Bool
  | 0, l => (l, false)
  | fuel + 1, l =>
    if l.rest.isEmpty then (l, false)
    else if lpeek l == '>' then (ladvance l, false)
    else if lpeek l == '/' && lpeekNext l == '>' then (ladvance (ladvance l), true)
    else lexNestedJSXScanTagEnd fuel (ladvance l)

/-- The closing-tag scan of `lexNestedJSX`: advance to and past `>`. -/
def lexNestedJSXScanClose : Nat → LexState → LexState
  | 0, l => l
  | fuel + 1, l =>
    if l.rest.isEmpty then l
    else if lpeek l == '>' then ladvance l
    else lexNestedJSXScanClose fuel (ladvance l)

/-- The depth-counting loop of `lexNestedJSX`. -/
def lexNestedJSXLoop : Nat → Int → LexState → LexState
  | 0, _, l => l
  | fuel + 1, depth, l =>
    if l.rest.isEmpty then l
    else
      let step : Int × LexState :=
        if lpeek l == '<' then
          if lpeekNext l == '/' then
            let l1 := ladvance (ladvance l)
            if lpeek l1 == '>' then (depth - 1, ladvance l1)
            else (depth - 1, lexNestedJSXScanClose (l1.rest.length + 1) l1)
          else if lpeekNext l == '>' then (depth + 1, ladvance (ladvance l))
          else if isIdentStart (lpeekNext l) then
            let l1 := ladvance l
            let r := lexNestedJSXScanTagEnd (l1.rest.length + 1) l1
            (if r.2 then depth else depth + 1, r.1)
          else (depth, ladvance l)
        else (depth, ladvance l)
      if step.1 == 0 then step.2 else lexNestedJSXLoop fuel step.1 step.2

/-- `lexNestedJSX`: consume a JSX element nested inside an expression. -/
def lexNestedJSX (l : LexState) : LexState :=
  lexNestedJSXLoop (l.rest.length + 1) 0 l

/-- The brace-counting loop of `lexJSXExpression`, aware of Go literals and
of JSX nested in the expression. -/
def lexJSXExprLoop : Nat → LexState → LexState
  | 0, l => l
  | fuel + 1, l =>
    if l.rest.isEmpty || !(l.braceDepth > 0) then l
    else
      let ch := lpeek l
      if ch == chLBrace then lexJSXExprLoop fuel (ladvance { l with braceDepth := l.braceDepth + 1 })
      else if ch == chRBrace then
        let l1 := { l with braceDepth := l.braceDepth - 1 }
        if l1.braceDepth == 0 then l1
        else lexJSXExprLoop fuel (ladvance l1)
      else if ch == chQuote then lexJSXExprLoop fuel (lexGoString l)
      else if ch == chSquote then lexJSXExprLoop fuel (lexGoRune l)
      else if ch == chBacktick then lexJSXExprLoop fuel (lexGoRawString l)
      else if ch == '<' && isJSXStart l then lexJSXExprLoop fuel (lexNestedJSX l)
      else lexJSXExprLoop fuel (ladvance l)

/-- `lexJSXExpression`: an expression inside braces; the token's value is
the exact text between the outer braces. -/
def lexJSXExpression (l : LexState) : Token × LexState :=
  let l1 := ladvance { l with braceDepth := 1 }
  let exprRest := l1.rest
  let exprStartPos := l1.pos
  let l2 := lexJSXExprLoop (l1.rest.length + 1) l1
  let value := exprRest.take (l2.pos - exprStartPos)
  (⟨.JSX_EXPR, value, l.pos, l.line, l.column⟩, { ladvance l2 with braceDepth := 0 })

/-- The scanning loop of `lexJSXText`: text runs until `<`, `{` or `}`. -/
def lexJSXTextLoop : Nat → LexState → GoStr → GoStr × LexState
  | 0, l, acc => (acc.reverse, l)
  | fuel + 1, l, acc =>
    match l.rest with
    | [] => (acc.reverse, l)
    | c :: _ =>
      if c == '<' || c == chLBrace || c == chRBrace then (acc.reverse, l)
      else lexJSXTextLoop fuel (ladvance l) (c :: acc)

/-- `lexJSXText`. -/
def lexJSXText (l : LexState) : Token × LexState :=
  let r := lexJSXTextLoop (l.rest.length + 1) l []
  (⟨.JSX_TEXT, r.1, l.pos, l.line, l.column⟩, r.2)

/-- `skipWhitespaceInTag`. -/
def skipWsInTag (l : LexState) : LexState :=
  if l.inTag then go (l.rest.length + 1) l else l
where
  go : Nat → LexState → LexState
    | 0, l => l
    | fuel + 1, l =>
      match l.rest with
      | [] => l
      | c :: _ =>
        if c == ' ' || c == '\t' || c == '\n' || c == '\r' then go fuel (ladvance l)
        else l

/-- `lexJSX`: lexing inside JSX context. -/
def lexJSX (l : LexState) : Token × LexState :=
  let l := skipWsInTag l
  if l.rest.isEmpty then (makeToken l .EOF [], l)
  else
    let ch := lpeek l
    if ch == chLBrace then lexJSXExpression l
    else if ch == chRBrace && l.braceDepth > 0 then
      let l1 := { ladvance l with braceDepth := l.braceDepth - 1 }
      (makeToken l1 .JSX_RBRACE [chRBrace], l1)
    else if ch == '<' then lexJSXOpen l
    else if ch == '>' then
      let l1 := ladvance l
      let wasClosing := l1.inClosingTag
      let wasSelf := l1.sawSlash
      let l2 := { l1 with inTag := false, inClosingTag := false, sawSlash := false }
      let l3 :=
        if wasClosing || wasSelf then
          let d := l2.jsxDepth - 1
          { l2 with jsxDepth := d, inJSX := if d == 0 then false else l2.inJSX }
        else l2
      (makeToken l3 .JSX_CLOSE ['>'], l3)
    else if ch == '/' then
      let l1 := { ladvance l with sawSlash := true }
      (makeToken l1 .JSX_SLASH ['/'], l1)
    else if l.inTag then
      if ch == '=' then (makeToken (ladvance l) .JSX_EQUALS ['='], ladvance l)
      else if ch == chQuote then lexJSXString l
      else if ch == '.' && lpeekNext l == '.' && lpeekAt l 2 == '.' then
        let l1 := ladvance (ladvance (ladvance l))
        (makeToken l1 .JSX_SPREAD ['.', '.', '.'], l1)
      else if isIdentStart ch then
        if l.needTagName then lexJSXIdentifier { l with needTagName := false } .JSX_TAG
        else lexJSXIdentifier l .JSX_ATTR_NAME
      else lexJSXText l
    else lexJSXText l

/-- The end-of-input tail of `lexGoCode`: flush accumulated host code or
produce EOF. -/
def lexGoCodeFinish (start : LexState) (l : LexState) : Token × LexState :=
  if l.pos > start.pos then
    (⟨.GO_CODE, start.rest.take (l.pos - start.pos), start.pos, start.line, start.column⟩, l)
  else (makeToken l .EOF [], l)

/-- The scanning loop of `lexGoCode`: scan host code until a JSX start,
skipping Go literals and comments wholesale. -/
def lexGoCodeLoop (start : LexState) : Nat → LexState → Token × LexState
  | 0, l => lexGoCodeFinish start l
  | fuel + 1, l =>
    if l.rest.isEmpty then lexGoCodeFinish start l
    else if isJSXStart l then
      if l.pos > start.pos then
        (⟨.GO_CODE, start.rest.take (l.pos - start.pos), start.pos, start.line, start.column⟩, l)
      else lexJSXOpen { l with inJSX := true }
    else
      let ch := lpeek l
      if ch == chQuote then lexGoCodeLoop start fuel (lexGoString l)
      else if ch == chSquote then lexGoCodeLoop start fuel (lexGoRune l)
      else if ch == chBacktick then lexGoCodeLoop start fuel (lexGoRawString l)
      else if ch == '/' && lpeekNext l == '/' then lexGoCodeLoop start fuel (lexGoLineComment l)
      else if ch == '/' && lpeekNext l == '*' then lexGoCodeLoop start fuel (lexGoBlockComment l)
      else lexGoCodeLoop start fuel (ladvance l)

/-- `lexGoCode`. -/
def lexGoCode (l : LexState) : Token × LexState :=
  lexGoCodeLoop l (l.rest.length + 1) l

/-- `NextToken`. -/
def nextToken (l : LexState) : Token × LexState :=
  if l.rest.isEmpty then (makeToken l .EOF [], l)
  else if l.inJSX then lexJSX l
  else lexGoCode l

/-- The whole token stream of an input (the trailing EOF token is not
included; consumers treat an exhausted stream as EOF).  `fuel` bounds the
number of tokens produced. -/
def tokenizeLoop : Nat → LexState → List Token
  | 0, _ => []
  | fuel + 1, l =>
    let r := nextToken l
    if r.1.type == .EOF then [] else r.1 :: tokenizeLoop fuel r.2

/-- Tokenize an input string. -/
def tokenize (fuel : Nat) (input : GoStr) : List Token :=
  tokenizeLoop fuel (newLexer input)

/-! ## AST (ast/types.go, ast/position.go) and Parser (parser/parser.go)

The Go AST uses interfaces (`Node`, `Attribute`, `JSXChild`); here a single
inductive carries all node shapes (Go code, text, expression, element,
fragment), which is a superset of each interface — the parser only builds
the combinations the Go parser builds.  The parser is modelled over an
arbitrary token list (the Go parser pulls tokens one at a time from the
lexer, whose state never depends on the parser, so pre-tokenizing is
equivalent); an exhausted list stands for the lexer's EOF token. -/

/-- `ast.Position`. -/
structure GPos where
  offset : Nat
  line : Nat
  column : Nat
deriving DecidableEq, Repr

/-- `ast.Range` (`stop` models the Go field `End`, a reserved word here). -/
structure GRange where
  start : GPos
  stop : GPos
deriving DecidableEq, Repr

/-- `ast.Attribute`: string, expression (also boolean), or spread. -/
inductive GAttr where
  | string (key value : GoStr) (r : GRange)
  | expr (key expression : GoStr) (r : GRange)
  | spread (expression : GoStr) (r : GRange)
deriving DecidableEq, Repr

/-- All AST node shapes: `goCode` (Node), `text`/`exprNode` (JSXChild),
`elem` (Node and JSXChild), `frag` (Node and JSXChild). -/
inductive GAst where
  | goCode (value : GoStr) (r : GRange)
  | text (value : GoStr) (r : GRange)
  | exprNode (value : GoStr) (r : GRange)
  | elem (tag : GoStr) (attrs : List GAttr) (children : List GAst)
      (selfClosing : Bool) (r : GRange)
  | frag (children : List GAst) (r : GRange)

/-- `ast.GoxFile`. -/
structure GoxFileM where
  sourcePath : GoStr
  nodes : List GAst

/-- Parser state: remaining tokens, accumulated error messages, filename. -/
structure PState where
  toks : List Token
  errors : List GoStr
  filename : GoStr
deriving Repr

/-- The EOF token an exhausted stream stands for. -/
def defaultEOF : Token := ⟨.EOF, [], 0, 0, 0⟩

/-- The current token `p.tok`. -/
def cur (p : PState) : Token := p.toks.headD defaultEOF

/-- `p.advance()`. -/
def padvance (p : PState) : PState := { p with toks := p.toks.tail }

/-- `TokenType.String()`.  `JSX_SPREAD`'s constant declaration is not among
the provided sources, so its numeric rendering in the default case is a
placeholder (never reached in this development). -/
def tokenTypeStr : TokenType → GoStr
  | .EOF => ("EOF").toList
  | .ERROR => ("ERROR").toList
  | .GO_CODE => ("GO_CODE").toList
  | .JSX_OPEN => ("JSX_OPEN").toList
  | .JSX_CLOSE => ("JSX_CLOSE").toList
  | .JSX_SLASH => ("JSX_SLASH").toList
  | .JSX_TAG => ("JSX_TAG").toList
  | .JSX_ATTR_NAME => ("JSX_ATTR_NAME").toList
  | .JSX_EQUALS => ("JSX_EQUALS").toList
  | .JSX_STRING => ("JSX_STRING").toList
  | .JSX_LBRACE => ("JSX_LBRACE").toList
  | .JSX_RBRACE => ("JSX_RBRACE").toList
  | .JSX_TEXT => ("JSX_TEXT").toList
  | .JSX_EXPR => ("JSX_EXPR").toList
  | .JSX_FRAG_OPEN => ("JSX_FRAG_OPEN").toList
  | .JSX_FRAG_CLOSE => ("JSX_FRAG_CLOSE").toList
  | .JSX_SPREAD => ("TOKEN(16)").toList

/-- `Token.String()` (the `%v` rendering used inside error messages). -/
def tokenStr (t : Token) : GoStr :=
  if utf8Len t.value > 20 then
    tokenTypeStr t.type ++ ['('] ++ goQuote (t.value.take 20) ++ ("...)").toList
  else tokenTypeStr t.type ++ ['('] ++ goQuote t.value ++ [')']

/-- `p.error`: append `filename:line:col: message` to the error list. -/
def perror (p : PState) (msg : GoStr) : PState :=
  { p with errors := p.errors ++
      [p.filename ++ [':'] ++ natToStr (cur p).line ++ [':'] ++
        natToStr (cur p).column ++ (": ").toList ++ msg] }

/-- A single-quote string fragment for error messages. -/
def sq : GoStr := [chSquote]

/-- `p.tokenRange()`. -/
def tokenRange (p : PState) : GRange :=
  let t := cur p
  ⟨⟨t.offset, t.line, t.column⟩,
   ⟨t.offset + utf8Len t.value, t.line, t.column + utf8Len t.value⟩⟩

/-- `p.prevPosition()`. -/
def prevPosition (p : PState) : GPos := ⟨(cur p).offset, (cur p).line, (cur p).column⟩

/-- `p.isClosingTag()`. -/
def isClosingTag (p : PState) : Bool :=
  (cur p).type == .JSX_OPEN && utf8Len (cur p).value == 2 && (cur p).value == ['<', '/']

/-- `parseGoCode`. -/
def parseGoCode (p : PState) : GAst × PState :=
  (.goCode (cur p).value (tokenRange p), padvance p)

/-- `parseJSXAttribute`. -/
def parseJSXAttribute (p : PState) : Option GAttr × PState :=
  if !((cur p).type == .JSX_ATTR_NAME) then (none, p)
  else
    let name := (cur p).value
    let startRange := tokenRange p
    let p1 := padvance p
    if !((cur p1).type == .JSX_EQUALS) then
      (some (.expr name (("true").toList) startRange), p1)
    else
      let p2 := padvance p1
      match (cur p2).type with
      | .JSX_STRING =>
        (some (.string name (cur p2).value ⟨startRange.start, (tokenRange p2).stop⟩),
         padvance p2)
      | .JSX_EXPR =>
        (some (.expr name (cur p2).value ⟨startRange.start, (tokenRange p2).stop⟩),
         padvance p2)
      | _ =>
        (none, perror p2 (("expected string or expression for attribute value, got ").toList
          ++ tokenStr (cur p2)))

/-- The attribute loop `parseJSXAttributes`. -/
def parseJSXAttributes : Nat → PState → List GAttr × PState
  | 0, p => ([], p)
  | fuel + 1, p =>
    match (cur p).type with
    | .JSX_CLOSE => ([], p)
    | .JSX_SLASH => ([], p)
    | .EOF => ([], p)
    | .JSX_ATTR_NAME =>
      let r := parseJSXAttribute p
      let rest := parseJSXAttributes fuel r.2
      match r.1 with
      | some a => (a :: rest.1, rest.2)
      | none => rest
    | .JSX_EXPR =>
      if utf8Len (cur p).value > 3 && (cur p).value.take 3 == ['.', '.', '.'] then
        let a : GAttr := .spread ((cur p).value.drop 3) (tokenRange p)
        let rest := parseJSXAttributes fuel (padvance p)
        (a :: rest.1, rest.2)
      else parseJSXAttributes fuel (padvance p)
    | _ =>
      parseJSXAttributes fuel
        (padvance (perror p (("unexpected token in attributes: ").toList ++ tokenStr (cur p))))

mutual

/-- `parseJSXElement`: parse a JSX element or dispatch to fragments. -/
def parseJSXElement : Nat → PState → Option GAst × PState
  | 0, p => (none, p)
  | fuel + 1, p =>
    let startRange := tokenRange p
    if (cur p).type == .JSX_FRAG_OPEN then parseJSXFragment fuel startRange p
    else if !((cur p).type == .JSX_OPEN) then
      (none, perror p (("expected ").toList ++ sq ++ ['<'] ++ sq ++ (", got ").toList
        ++ tokenStr (cur p)))
    else
      let p1 := padvance p
      if !((cur p1).type == .JSX_TAG) then
        (none, perror p1 (("expected tag name, got ").toList ++ tokenStr (cur p1)))
      else
        let tagName := (cur p1).value
        let p2 := padvance p1
        let ar := parseJSXAttributes fuel p2
        let attrs := ar.1
        let p3 := ar.2
        if (cur p3).type == .JSX_SLASH then
          let p4 := padvance p3
          let p5 :=
            if !((cur p4).type == .JSX_CLOSE) then
              perror p4 (("expected ").toList ++ sq ++ ['>'] ++ sq ++ (" after ").toList
                ++ sq ++ ['/'] ++ sq ++ (", got ").toList ++ tokenStr (cur p4))
            else padvance p4
          (some (.elem tagName attrs [] true ⟨startRange.start, prevPosition p5⟩), p5)
        else if !((cur p3).type == .JSX_CLOSE) then
          (some (.elem tagName attrs [] false startRange),
           perror p3 (("expected ").toList ++ sq ++ ['>'] ++ sq ++ (" or ").toList
             ++ sq ++ ['/', '>'] ++ sq ++ (", got ").toList ++ tokenStr (cur p3)))
        else
          let p4 := padvance p3
          let cr := parseJSXChildren fuel tagName p4
          let p5 := cr.2
          let p6 :=
            if (cur p5).type == .JSX_OPEN then
              let pa := padvance p5
              let pb :=
                if (cur pa).type == .JSX_TAG then
                  let closeTag := (cur pa).value
                  let pae :=
                    if !(closeTag == tagName) then
                      perror pa (("mismatched closing tag: expected </").toList ++ tagName
                        ++ (">, got </").toList ++ closeTag ++ ['>'])
                    else pa
                  padvance pae
                else pa
              if (cur pb).type == .JSX_CLOSE then padvance pb else pb
            else p5
          (some (.elem tagName attrs cr.1 false ⟨startRange.start, prevPosition p6⟩), p6)

/-- `parseJSXFragment`. -/
def parseJSXFragment : Nat → GRange → PState → Option GAst × PState
  | 0, _, p => (none, p)
  | fuel + 1, startRange, p =>
    let p1 := padvance p
    let cr := parseJSXChildren fuel [] p1
    let p2 := if (cur cr.2).type == .JSX_FRAG_CLOSE then padvance cr.2 else cr.2
    (some (.frag cr.1 ⟨startRange.start, prevPosition p2⟩), p2)

/-- The children loop `parseJSXChildren`. -/
def parseJSXChildren : Nat → GoStr → PState → List GAst × PState
  | 0, _, p => ([], p)
  | fuel + 1, parentTag, p =>
    match (cur p).type with
    | .EOF => ([], p)
    | .JSX_FRAG_CLOSE => ([], p)
    | .JSX_OPEN =>
      if isClosingTag p then ([], p)
      else
        let r := parseJSXElement fuel p
        let rest := parseJSXChildren fuel parentTag r.2
        match r.1 with
        | some (.elem t a c s rng) => (.elem t a c s rng :: rest.1, rest.2)
        | _ => rest
    | .JSX_FRAG_OPEN =>
      let r := parseJSXElement fuel p
      let rest := parseJSXChildren fuel parentTag r.2
      match r.1 with
      | some (.frag c rng) => (.frag c rng :: rest.1, rest.2)
      | _ => rest
    | .JSX_TEXT =>
      let t : GAst := .text (cur p).value (tokenRange p)
      let rest := parseJSXChildren fuel parentTag (padvance p)
      (t :: rest.1, rest.2)
    | .JSX_EXPR =>
      let e : GAst := .exprNode (cur p).value (tokenRange p)
      let rest := parseJSXChildren fuel parentTag (padvance p)
      (e :: rest.1, rest.2)
    | _ =>
      parseJSXChildren fuel parentTag
        (padvance (perror p (("unexpected token in children: ").toList ++ tokenStr (cur p))))

end

/-- `parseNode`. -/
def parseNode : Nat → PState → Option GAst × PState
  | 0, p => (none, p)
  | fuel + 1, p =>
    match (cur p).type with
    | .GO_CODE =>
      let r := parseGoCode p
      (some r.1, r.2)
    | .JSX_OPEN => parseJSXElement fuel p
    | .JSX_FRAG_OPEN => parseJSXElement fuel p
    | .EOF => (none, p)
    | _ =>
      (none, padvance (perror p (("unexpected token: ").toList ++ tokenStr (cur p))))

/-- The top-level loop of `Parse`. -/
def parseTop : Nat → PState → List GAst × PState
  | 0, p => ([], p)
  | fuel + 1, p =>
    if (cur p).type == .EOF then ([], p)
    else
      let r := parseNode fuel p
      let rest := parseTop fuel r.2
      match r.1 with
      | some n => (n :: rest.1, rest.2)
      | none => rest

/-- `parser.Parse`: lex, parse, and return the tree with the first recorded
error (if any). -/
def Parse (fuel : Nat) (filename : GoStr) (src : GoStr) : GoxFileM × Option GoStr :=
  let p0 : PState := ⟨tokenize fuel src, [], filename⟩
  let r := parseTop fuel p0
  (⟨filename, r.1⟩, r.2.errors.head?)

/-! ## Generator (generator/generator.go)

Go's generator writes into a buffer through `g.write`; consecutive writes
of constant pieces are modelled as one write of their concatenation (string
building is associative, and `write` only appends while tracking the output
cursor).  The pipeline re-entry for JSX nested in expressions
(`transformJSXString` → `parser.Parse` → fresh generator) is fuel-bounded:
every mutually recursive call decrements the shared fuel, and out of fuel
the model emits nothing further. -/

/-- `unicode.ToUpper` restricted to Latin-1 (exact there: a-z and à-þ
except ÷ map down by 32, ÿ maps to Ÿ); code points above 0xFF are returned
unchanged (no modelled input capitalizes one). -/
def goToUpper (c : Char) : Char :=
  let v := c.toNat
  if 97 ≤ v && v ≤ 122 then Char.ofNat (v - 32)
  else if 0xE0 ≤ v && v ≤ 0xFE && !(v == 0xF7) then Char.ofNat (v - 32)
  else if v == 0xFF then Char.ofNat 0x178
  else c

/-- `capitalize`: first rune uppercased. -/
def capitalize : GoStr → GoStr
  | [] => []
  | c :: rest => goToUpper c :: rest

/-- `strings.HasPrefix`. -/
def hasPrefixG (s p : GoStr) : Bool := s.take p.length == p

/-- `strings.HasSuffix`. -/
def hasSuffixG (s p : GoStr) : Bool := s.drop (s.length - p.length) == p

/-- `strings.TrimPrefix`. -/
def trimPrefixG (s p : GoStr) : GoStr := if hasPrefixG s p then s.drop p.length else s

/-- `strings.TrimSuffix`. -/
def trimSuffixG (s p : GoStr) : GoStr := if hasSuffixG s p then s.take (s.length - p.length) else s

/-- `isCommentOnly`. -/
def isCommentOnly (s : GoStr) : Bool :=
  let s := goTrimSpace s
  if s == ([] : GoStr) then true
  else if hasPrefixG s ['/', '*'] && hasSuffixG s ['*', '/'] then
    let inner := trimSuffixG (trimPrefixG s ['/', '*']) ['*', '/']
    goTrimSpace inner == ([] : GoStr) || !(containsSub inner ['*', '/'])
  else if hasPrefixG s ['/', '/'] then true
  else false

/-- `wrapMapLiteral`: prefix a bare brace literal with `map[string]any`. -/
def wrapMapLiteral (expr : GoStr) : GoStr :=
  let expr := goTrimSpace expr
  if utf8Len expr < 2 then expr
  else if expr.headD (Char.ofNat 0) == chLBrace && expr.getLastD (Char.ofNat 0) == chRBrace then
    ("map[string]any").toList ++ expr
  else expr

/-- Is an attribute a spread attribute? -/
def isSpreadAttr : GAttr → Bool
  | .spread _ _ => true
  | _ => false

/-- The comma-separated typed struct fields of `generateTypedProps`
(`Key: "value"` for string attributes, `Key: expr` for expression
attributes; the Go switch has no spread case). -/
def typedFieldsStr : List GAttr → Bool → GoStr
  | [], _ => []
  | a :: rest, first =>
    (if !first then (", ").toList else []) ++
      (match a with
       | .string k v _ => capitalize k ++ (": ").toList ++ goQuote v
       | .expr k e _ => capitalize k ++ (": ").toList ++ e
       | .spread _ _ => []) ++
      typedFieldsStr rest false

/-- `generateTypedPropsWithSpread`: spreads are dropped and only the
regular fields are emitted.  The Go function's `len(spreads) == 0` tail
calls `generateTypedProps(regular, ...)`, which (having no spreads) writes
the same plain struct literal; that call is unrolled here. -/
def generateTypedPropsWithSpread (attrs : List GAttr) (propsType : GoStr) : GoStr :=
  let regular := attrs.filter (fun a => !(isSpreadAttr a))
  let spreads := attrs.filter isSpreadAttr
  if spreads.length > 0 then
    propsType ++ [chLBrace] ++ typedFieldsStr regular true ++ [chRBrace]
  else if regular.isEmpty then propsType ++ [chLBrace, chRBrace]
  else propsType ++ [chLBrace] ++ typedFieldsStr regular true ++ [chRBrace]

/-- `generateTypedProps`: the typed props struct literal. -/
def generateTypedProps (attrs : List GAttr) (propsType : GoStr) : GoStr :=
  if attrs.isEmpty then propsType ++ [chLBrace, chRBrace]
  else if attrs.any isSpreadAttr then generateTypedPropsWithSpread attrs propsType
  else propsType ++ [chLBrace] ++ typedFieldsStr attrs true ++ [chRBrace]

/-- The comma-separated fields of a `gox.Props` map literal
(`"key": "value"` / `"key": expr` with bare brace literals wrapped). -/
def propsFieldsStr : List GAttr → Bool → GoStr
  | [], _ => []
  | a :: rest, first =>
    (if !first then (", ").toList else []) ++
      (match a with
       | .string k v _ => goQuote k ++ (": ").toList ++ goQuote v
       | .expr k e _ => goQuote k ++ (": ").toList ++ wrapMapLiteral e
       | .spread _ _ => []) ++
      propsFieldsStr rest false

/-- One batched `gox.Props` literal of `generatePropsWithSpread`
(indexed-comma loop). -/
def batchStr (batch : List GAttr) : GoStr :=
  ("gox.Props").toList ++ [chLBrace] ++ propsFieldsStr batch true ++ [chRBrace]

/-- The argument list of `gox.MergeProps`: consecutive non-spread
attributes batch into one map literal, spread expressions interleave in
order. -/
def mergeArgsStr : List GAttr → List GAttr → Bool → GoStr
  | [], batch, first =>
    if batch.isEmpty then []
    else (if !first then (", ").toList else []) ++ batchStr batch
  | a :: rest, batch, first =>
    match a with
    | .spread e _ =>
      let flushed : GoStr × Bool :=
        if batch.isEmpty then ([], first)
        else ((if !first then (", ").toList else []) ++ batchStr batch, false)
      flushed.1 ++ (if !flushed.2 then (", ").toList else []) ++ e ++
        mergeArgsStr rest [] false
    | _ => mergeArgsStr rest (batch ++ [a]) first

/-- `generatePropsWithSpread`. -/
def generatePropsWithSpread (attrs : List GAttr) : GoStr :=
  ("gox.MergeProps(").toList ++ mergeArgsStr attrs [] true ++ [')']

/-- `generateProps`: the props argument of an intrinsic element. -/
def generateProps (attrs : List GAttr) : GoStr :=
  if attrs.isEmpty then ("nil").toList
  else if attrs.any isSpreadAttr then generatePropsWithSpread attrs
  else ("gox.Props").toList ++ [chLBrace] ++ propsFieldsStr attrs true ++ [chRBrace]

/-- The child-skipping test of `generateChildren` / `generateJSXFragment`:
whitespace-only text and empty or comment-only expressions are dropped. -/
def skipChild : GAst → Bool
  | .text v _ => goTrimSpace v == ([] : GoStr)
  | .exprNode e _ => goTrimSpace e == ([] : GoStr) || isCommentOnly (goTrimSpace e)
  | _ => false

/-- The component test of `generateJSXElement`:
`len(elem.Tag) > 0 && unicode.IsUpper(rune(elem.Tag[0]))` — the Go code
classifies the tag's first BYTE cast to a rune. -/
def goxIsComponent : GoStr → Bool
  | [] => false
  | c :: _ => latin1IsUpper (utf8FirstByte c)

/-- Generator state. -/
structure GenSt where
  buf : GoStr
  indent : Nat
  smap : SourceMap
  runtimePkg : GoStr
  needsImport : Bool
  outLine : Nat
  outCol : Nat

/-- `generator.New` with default options. -/
def initGen : GenSt :=
  ⟨[], 0, NewSourceMap, ("github.com/germtb/gox").toList, false, 0, 0⟩

/-- One step of output-cursor tracking. -/
def advanceOut (lc : Nat × Nat) (c : Char) : Nat × Nat :=
  if c == '\n' then (lc.1 + 1, 0) else (lc.1, lc.2 + 1)

/-- `g.write`: append to the buffer, tracking the output line and column. -/
def gwrite (st : GenSt) (s : GoStr) : GenSt :=
  let lc := s.foldl advanceOut (st.outLine, st.outCol)
  { st with buf := st.buf ++ s, outLine := lc.1, outCol := lc.2 }

/-- `g.writeWithMapping` (1-indexed source coordinates from the AST are
converted to the source map's 0-indexed space). -/
def writeWithMapping (st : GenSt) (s : GoStr) (srcLine srcCol : Nat) : GenSt :=
  let st1 :=
    if srcLine > 0 && srcCol > 0 then
      { st with smap := (AddExpression st.smap s ⟨srcLine - 1, srcCol - 1⟩ ⟨st.outLine, st.outCol⟩) }
    else st
  gwrite st1 s

/-- `g.writeIndent` (the generator never changes `indent` from 0). -/
def writeIndentG (st : GenSt) : GenSt := gwrite st (List.replicate st.indent '\t')

/-- The start-of-element source mapping recorded by `generateJSXElement`
and `generateJSXFragment` when the node carries a valid position. -/
def elemStartMapping (st : GenSt) (r : GRange) : GenSt :=
  if r.start.line > 0 then
    { st with smap := (AddMapping st.smap (r.start.line - 1) (r.start.column - 1) st.outLine st.outCol) }
  else st

/-- The rune at index `i` (0 when out of range, like Go's sentinel). -/
def sAt (s : GoStr) (i : Nat) : Char := (s.drop i).headD (Char.ofNat 0)

/-- The JSX-start scan of `transformExpressionJSX`: the first `<` whose
next byte is an ASCII letter or `>`. -/
def findJSXStartIdx (s : GoStr) : Option Nat := go 0 s
where
  go (i : Nat) : GoStr → Option Nat
    | [] => none
    | c :: rest =>
      if c == '<' then
        match rest with
        | c2 :: _ =>
          let b := utf8FirstByte c2
          if (97 ≤ b && b ≤ 122) || (65 ≤ b && b ≤ 90) || b == 62 then some i
          else go (i + 1) rest
        | [] => none
      else go (i + 1) rest

/-- The closing-tag scan inside `findJSXEnd`: advance to `>` (or the end). -/
def scanToGt : Nat → GoStr → Nat → Nat
  | 0, _, i => i
  | fuel + 1, s, i =>
    if i < s.length && !(sAt s i == '>') then scanToGt fuel s (i + 1) else i

/-- The opening-tag scan inside `findJSXEnd`: advance past `>` or a
self-closing `/>`; returns (new index, new depth, early-return flag). -/
def scanTagEnd : Nat → GoStr → Nat → Int → Nat × Int × Bool
  | 0, _, i, d => (i, d, false)
  | fuel + 1, s, i, depth =>
    if i < s.length then
      if sAt s i == '/' && i + 1 < s.length && sAt s (i + 1) == '>' then
        (i + 2, depth - 1, depth - 1 == 0)
      else if sAt s i == '>' then (i + 1, depth, false)
      else scanTagEnd fuel s (i + 1) depth
    else (i, depth, false)

/-- The depth-counting loop of `findJSXEnd`. -/
def findJSXEndLoop : Nat → GoStr → Int → Nat → Option Nat
  | 0, _, _, _ => none
  | fuel + 1, s, depth, i =>
    if i < s.length then
      if sAt s i == '<' then
        if i + 1 < s.length && sAt s (i + 1) == '/' then
          let d := depth - 1
          let j := scanToGt (s.length + 1) s i
          if d == 0 then some (j + 1) else findJSXEndLoop fuel s d j
        else if i + 1 < s.length && sAt s (i + 1) == '>' then
          findJSXEndLoop fuel s (depth + 1) (i + 2)
        else
          let r := scanTagEnd (s.length + 1) s i (depth + 1)
          if r.2.2 then some r.1 else findJSXEndLoop fuel s r.2.1 r.1
      else findJSXEndLoop fuel s depth (i + 1)
    else none

/-- `findJSXEnd` (`none` for Go's -1).  Every loop iteration advances the
index, so the internal fuel `s.length + 1` is never the exit reason. -/
def findJSXEnd (s : GoStr) (start : Nat) : Option Nat :=
  findJSXEndLoop (s.length + 1) s 0 start

/-- `hasJSX`: does the file contain a top-level JSX element or fragment? -/
def hasJSXFile (file : GoxFileM) : Bool :=
  file.nodes.any fun n =>
    match n with
    | .elem _ _ _ _ _ => true
    | .frag _ _ => true
    | _ => false

/-- `insertRuntimeImport`. -/
def insertRuntimeImport (rp : GoStr) (src : GoStr) : GoStr :=
  if containsSub src rp then src
  else
    match indexOfSub src (("package ").toList) with
    | none => src
    | some pkgIdx =>
      match indexOfSub (src.drop pkgIdx) ['\n'] with
      | none => src
      | some newlineIdx =>
        let insertPos := pkgIdx + newlineIdx + 1
        let fresh := src.take insertPos ++ ['\n'] ++ ("import ").toList ++ [chQuote]
          ++ rp ++ [chQuote, '\n'] ++ src.drop insertPos
        match indexOfSub (src.drop insertPos) (("import ").toList) with
        | some importIdx =>
          if importIdx < 100 then
            let importPos := insertPos + importIdx
            let afterImport := src.drop (importPos + 7)
            if afterImport.length > 0 && afterImport.headD (Char.ofNat 0) == '(' then
              let parenPos := importPos + 7 + 1
              src.take parenPos ++ ['\n', '\t', chQuote] ++ rp ++ [chQuote]
                ++ src.drop parenPos
            else
              match indexOfSub afterImport ['\n'] with
              | none => src
              | some importEnd =>
                let singleImport := goTrimSpace (afterImport.take importEnd)
                src.take importPos ++ ("import (").toList ++ ['\n', '\t', chQuote]
                  ++ rp ++ [chQuote, '\n', '\t'] ++ singleImport ++ ['\n', ')']
                  ++ src.drop (importPos + 7 + importEnd)
          else fresh
        | none => fresh

mutual

/-- `generateNode`: Go code passes through with mappings; elements and
fragments are emitted; other shapes are not `Node`s and are ignored, as in
the Go type switch. -/
def generateNode : Nat → GenSt → GAst → GenSt
  | _, st, .goCode v r => writeWithMapping st v r.start.line r.start.column
  | fuel + 1, st, .elem t a c _ r => generateJSXElement fuel st t a c r
  | fuel + 1, st, .frag c r => generateJSXFragment fuel st c r
  | _, st, _ => st

/-- `generateJSXElement`: record the element-start mapping, then dispatch
on the first byte of the tag. -/
def generateJSXElement : Nat → GenSt → GoStr → List GAttr → List GAst → GRange → GenSt
  | fuel, st, tag, attrs, children, r =>
    let st := elemStartMapping st r
    match fuel with
    | 0 => st
    | fuel + 1 =>
      if goxIsComponent tag then generateTypedComponent fuel st tag attrs children
      else generateIntrinsicElement fuel st tag attrs children

/-- `generateTypedComponent`:
`Tag(TagProps{...}, child1, child2, ...)`. -/
def generateTypedComponent : Nat → GenSt → GoStr → List GAttr → List GAst → GenSt
  | fuel, st, tag, attrs, children =>
    let propsType := tag ++ ("Props").toList
    let st := gwrite st (tag ++ ['('] ++ generateTypedProps attrs propsType)
    match fuel with
    | 0 => gwrite st [')']
    | fuel + 1 =>
      let st := generateChildren fuel st children
      gwrite st [')']

/-- `generateIntrinsicElement`:
`gox.Element("tag", props, child1, ...)`. -/
def generateIntrinsicElement : Nat → GenSt → GoStr → List GAttr → List GAst → GenSt
  | fuel, st, tag, attrs, children =>
    let st := gwrite st (("gox.Element(").toList ++ goQuote tag ++ (", ").toList
      ++ generateProps attrs)
    match fuel with
    | 0 => gwrite st [')']
    | fuel + 1 =>
      let st := generateChildren fuel st children
      gwrite st [')']

/-- `generateChildren`: each kept child is preceded by a comma, newline and
indentation. -/
def generateChildren : Nat → GenSt → List GAst → GenSt
  | _, st, [] => st
  | 0, st, _ => st
  | fuel + 1, st, c :: rest =>
    if skipChild c then generateChildren fuel st rest
    else
      let st := writeIndentG (gwrite st ((",\n").toList))
      let st := generateJSXChild fuel st c
      generateChildren fuel st rest

/-- `generateJSXFragment`: `gox.Fragment(children...)`. -/
def generateJSXFragment : Nat → GenSt → List GAst → GRange → GenSt
  | fuel, st, children, r =>
    let st := elemStartMapping st r
    let st := gwrite st (("gox.Fragment(").toList)
    match fuel with
    | 0 => gwrite st [')']
    | fuel + 1 =>
      let st := fragChildren fuel st children true
      gwrite st [')']

/-- The fragment children loop (separators between kept children). -/
def fragChildren : Nat → GenSt → List GAst → Bool → GenSt
  | _, st, [], _ => st
  | 0, st, _, _ => st
  | fuel + 1, st, c :: rest, first =>
    if skipChild c then fragChildren fuel st rest first
    else
      let st := if !first then writeIndentG (gwrite st ((",\n").toList)) else st
      let st := generateJSXChild fuel st c
      fragChildren fuel st rest false

/-- `generateJSXChild`: text becomes `gox.Text("...")`; an expression is
JSX-transformed and then either split at the first `" && "` into
`gox.When(cond, rest)` or wrapped in `gox.V(...)`. -/
def generateJSXChild : Nat → GenSt → GAst → GenSt
  | _, st, .text v _ =>
    let t := goTrimSpace v
    if t == ([] : GoStr) then st
    else gwrite st (("gox.Text(").toList ++ goQuote t ++ [')'])
  | fuel + 1, st, .exprNode e _ =>
    let expr := goTrimSpace e
    if expr == ([] : GoStr) || isCommentOnly expr then st
    else
      let transformed := transformExpressionJSX fuel st.runtimePkg expr
      match indexOfSub transformed ((" && ").toList) with
      | some idx =>
        let cond := goTrimSpace (transformed.take idx)
        let rest := goTrimSpace (transformed.drop (idx + 4))
        gwrite st (("gox.When(").toList ++ cond ++ (", ").toList ++ rest ++ [')'])
      | none => gwrite st (("gox.V(").toList ++ transformed ++ [')'])
  | fuel + 1, st, .elem t a c _ r => generateJSXElement fuel st t a c r
  | fuel + 1, st, .frag c r => generateJSXFragment fuel st c r
  | _, st, _ => st

/-- `transformExpressionJSX`: repeatedly locate a JSX span in the
expression text and splice in its transformation. -/
def transformExpressionJSX : Nat → GoStr → GoStr → GoStr
  | 0, _, s => s
  | fuel + 1, rp, s =>
    match findJSXStartIdx s with
    | none => s
    | some jsxStart =>
      match findJSXEnd s jsxStart with
      | none => s
      | some jsxEnd =>
        let jsxCode := (s.drop jsxStart).take (jsxEnd - jsxStart)
        let transformed := transformJSXString fuel rp jsxCode
        transformExpressionJSX fuel rp
          (s.take jsxStart ++ transformed ++ s.drop jsxEnd)

/-- `transformJSXString`: parse the JSX span and generate it with a fresh
generator (same runtime package). -/
def transformJSXString : Nat → GoStr → GoStr → GoStr
  | 0, _, jsx => jsx
  | fuel + 1, rp, jsx =>
    let r := Parse fuel (("<expr>").toList) jsx
    if r.2.isSome || r.1.nodes.length == 0 then jsx
    else (genNodes fuel { initGen with runtimePkg := rp } r.1.nodes).buf

/-- The node loop of `Generate`. -/
def genNodes : Nat → GenSt → List GAst → GenSt
  | _, st, [] => st
  | 0, st, _ => st
  | fuel + 1, st, n :: rest => genNodes fuel (generateNode fuel st n) rest

end

/-- `Generate`: the full generation pipeline.  `fmtf` stands for the
external `go/format.Source` (out of scope per the spec); `none` models its
error, in which case the unformatted text is returned.  The error component
of the result is the Go function's `error` return value. -/
def GoxGenerate (fuel : Nat) (fmtf : GoStr → Option GoStr) (file : GoxFileM) :
    GoStr × SourceMap × Option GoStr :=
  let st := { initGen with needsImport := hasJSXFile file }
  let st := genNodes fuel st file.nodes
  let result := st.buf
  let result := if st.needsImport then insertRuntimeImport st.runtimePkg result else result
  match fmtf result with
  | some formatted => (formatted, st.smap, none)
  | none => (result, st.smap, none)

/-! ## Specification-side definitions

These definitions are written from the words of the specification or claim
(not from the Go sources); theorems compare them with the code-side
definitions above. -/

/-- The all-zero range (used for concrete inputs whose positions are
irrelevant; line 0 means no mapping is recorded, as with synthetic nodes). -/
def rangeZero : GRange := ⟨⟨0, 0, 0⟩, ⟨0, 0, 0⟩⟩

/-- The conditional-shorthand separator searched for by the generator. -/
def andSep : GoStr := (" && ").toList

/-- Spec-side classification of C1: is the tag's first CHARACTER an
uppercase letter?  (Exact on Latin-1 tags, which covers every input
considered here.) -/
def specFirstCharUpper : GoStr → Bool
  | [] => false
  | c :: _ => latin1IsUpper c.toNat

/-- Claim-side recognition predicate of C8, from the claim's words: `<`
followed by an identifier-start character, by `>`, or by `/` followed by
`>` or by an identifier. -/
def claimJSXStart : GoStr → Bool
  | '<' :: c :: t =>
    isIdentStart c || c == '>' ||
      (c == '/' && (t.headD (Char.ofNat 0) == '>' || isIdentStart (t.headD (Char.ofNat 0))))
  | _ => false

/-- Net parenthesis balance of a string. -/
def parenNet (s : GoStr) : Int :=
  s.foldl (fun acc c => if c == '(' then acc + 1 else if c == ')' then acc - 1 else acc) 0

/-- Spec-side test of C9: can one side of a `cond && node` split stand as a
complete expression?  (Non-empty, an even number of double quotes, and
balanced parentheses.) -/
def specExprSide (s : GoStr) : Bool :=
  !s.isEmpty && (s.filter (fun c => c == chQuote)).length % 2 == 0 && parenNet s == 0

/-- Spec-side test of C9: is the expression of the exact form
`condition && node` with both sides complete expressions? -/
def specCondAndNode (e : GoStr) : Bool :=
  (List.range (e.length + 1)).any fun i =>
    subAt e andSep i && specExprSide (e.take i) && specExprSide (e.drop (i + 4))

mutual

/-- The C5 invariant on one node: every element with `selfClosing` set has
no children, recursively. -/
def selfClosingOKb : GAst → Bool
  | .elem _ _ c s _ => (!s || c.isEmpty) && selfClosingOKList c
  | .frag c _ => selfClosingOKList c
  | _ => true

/-- The C5 invariant on a list of nodes. -/
def selfClosingOKList : List GAst → Bool
  | [] => true
  | n :: rest => selfClosingOKb n && selfClosingOKList rest

end

/-- The concatenation of the host-code values of a node list (the expected
output of `Generate` on a markup-free file, before formatting). -/
def concatGoValues : List GAst → GoStr
  | [] => []
  | .goCode v _ :: rest => v ++ concatGoValues rest
  | _ :: rest => concatGoValues rest

/-! ## Theorems -/

/-- The split-lines form of `AddExpression` agrees with the direct
rune-by-rune walk. -/
theorem addExprLines_eq_walk (v : GoStr) : ∀ sl sc tl tc,
    addExprLines ((splitNl v).1 :: (splitNl v).2) sl sc tl tc =
      addExprWalk v sl sc tl tc := by
  induction v with
  | nil => intro sl sc tl tc; simp [splitNl, addExprLines, lineCalls, addExprWalk]
  | cons c cs ih =>
    intro sl sc tl tc
    by_cases hc : c == '\n'
    · have h1 : splitNl (c :: cs) = ([], (splitNl cs).1 :: (splitNl cs).2) := by
        simp [splitNl, hc]
      rw [h1, addExprLines, ih]
      simp [lineCalls, addExprWalk, hc]
    · have h1 : splitNl (c :: cs) = (c :: (splitNl cs).1, (splitNl cs).2) := by
        simp [splitNl, hc]
      have h2 : lineCalls (splitNl cs).1 sl (sc + goRuneLen c) tl (tc + goRuneLen c) ++
            addExprLines (splitNl cs).2 (sl + 1) 0 (tl + 1) 0 =
          addExprLines ((splitNl cs).1 :: (splitNl cs).2)
            sl (sc + goRuneLen c) tl (tc + goRuneLen c) := rfl
      rw [h1, addExprLines, lineCalls, addExprWalk]
      simp only [hc, if_neg, Bool.false_eq_true, not_false_eq_true, List.cons_append]
      rw [h2, ih]

/-- `addExprWalk` produces one mapping per rune of each line plus one extra
mapping per line. -/
theorem addExprWalk_length (v : GoStr) : ∀ sl sc tl tc,
    (addExprWalk v sl sc tl tc).length =
      (v.filter (fun c => !(c == '\n'))).length +
        ((v.filter (fun c => c == '\n')).length + 1) := by
  induction v with
  | nil => intro sl sc tl tc; simp [addExprWalk]
  | cons c cs ih =>
    intro sl sc tl tc
    by_cases hc : c == '\n' <;>
      simp [addExprWalk, hc, List.filter, ih] <;> omega

/-- Claim C7: `AddExpression` adds one mapping per rune of the text
(advancing both source and target columns by the rune's encoded UTF-8
width) plus one extra mapping at each line's end position, and every
newline increments both line counters and resets both columns to zero —
stated as equality with the spec-side walk `addExprWalk` together with the
mapping count; in particular mapping "line1\nline2" from source (10,5) and
target (20,5) maps source (11,0) to target (21,0). -/
theorem C7_addExpression_rune_walk :
    (∀ (v : GoStr) (s t : SMPos),
        addExpressionCalls v s t = addExprWalk v s.line s.column t.line t.column) ∧
    (∀ (v : GoStr) (s t : SMPos),
        (addExpressionCalls v s t).length =
          (v.filter (fun c => !(c == '\n'))).length +
            ((v.filter (fun c => c == '\n')).length + 1)) ∧
    TargetPositionFromSource
        (AddExpression NewSourceMap ("line1\nline2").toList ⟨10, 5⟩ ⟨20, 5⟩) 11 0
      = some ⟨21, 0⟩ := by
  refine ⟨fun v s t => ?_, fun v s t => ?_, by decide⟩
  · unfold addExpressionCalls
    exact addExprLines_eq_walk v s.line s.column t.line t.column
  · unfold addExpressionCalls
    rw [addExprLines_eq_walk v s.line s.column t.line t.column]
    exact addExprWalk_length v s.line s.column t.line t.column

/-- Looking up the key just written returns the written position. -/
theorem smLookup_cons_self (m : SMEntries) (l c : Nat) (p : SMPos) :
    smLookup ((l, c, p) :: m) l c = some p := by
  simp [smLookup, List.find?]

/-- Writing one key leaves the lookup of any other key unchanged. -/
theorem smLookup_cons_other (m : SMEntries) (l c l' c' : Nat) (p : SMPos)
    (h : (l, c) ≠ (l', c')) :
    smLookup ((l, c, p) :: m) l' c' = smLookup m l' c' := by
  have hb : ((l : Nat) == l' && (c : Nat) == c') = false := by
    by_cases h1 : l = l'
    · subst h1
      have h2 : ¬ c = c' := fun hc => h (by rw [hc])
      simp [h2]
    · simp [h1]
  simp [smLookup, List.find?, hb]

/-- `applyMappings` with one call: unfolding of the fold. -/
theorem applyMappings_cons (sm : SourceMap) (a : Nat × Nat × Nat × Nat)
    (cs : MappingCalls) :
    applyMappings sm (a :: cs) =
      applyMappings (AddMapping sm a.1 a.2.1 a.2.2.1 a.2.2.2) cs := rfl

/-- A sequence of calls none of which writes source key `(l, c)` leaves the
forward lookup of `(l, c)` unchanged. -/
theorem applyMappings_s2t_untouched (calls : MappingCalls) :
    ∀ (sm : SourceMap) (l c : Nat),
      (∀ call ∈ calls, (call.1, call.2.1) ≠ (l, c)) →
      smLookup (applyMappings sm calls).sourceToTarget l c =
        smLookup sm.sourceToTarget l c := by
  induction calls with
  | nil => intro sm l c _; rfl
  | cons a cs ih =>
    intro sm l c h
    rw [applyMappings_cons]
    rw [ih _ l c (fun call hc => h call (List.mem_cons_of_mem a hc))]
    exact smLookup_cons_other _ _ _ _ _ _ (h a (List.mem_cons_self a cs))

/-- A sequence of calls none of which writes target key `(l, c)` leaves the
reverse lookup of `(l, c)` unchanged. -/
theorem applyMappings_t2s_untouched (calls : MappingCalls) :
    ∀ (sm : SourceMap) (l c : Nat),
      (∀ call ∈ calls, (call.2.2.1, call.2.2.2) ≠ (l, c)) →
      smLookup (applyMappings sm calls).targetToSource l c =
        smLookup sm.targetToSource l c := by
  induction calls with
  | nil => intro sm l c _; rfl
  | cons a cs ih =>
    intro sm l c h
    rw [applyMappings_cons]
    rw [ih _ l c (fun call hc => h call (List.mem_cons_of_mem a hc))]
    exact smLookup_cons_other _ _ _ _ _ _ (h a (List.mem_cons_self a cs))

/-- After a call sequence with pairwise-distinct source keys, the forward
map holds exactly the pair each call wrote. -/
theorem applyMappings_member_s2t (calls : MappingCalls) :
    ∀ (sm : SourceMap) (s sc t tc : Nat),
      (s, sc, t, tc) ∈ calls →
      calls.Pairwise (fun a b => (a.1, a.2.1) ≠ (b.1, b.2.1)) →
      smLookup (applyMappings sm calls).sourceToTarget s sc = some ⟨t, tc⟩ := by
  induction calls with
  | nil => intro sm s sc t tc hmem _; simp at hmem
  | cons a cs ih =>
    intro sm s sc t tc hmem hpw
    rcases List.mem_cons.mp hmem with heq | hmem'
    · subst heq
      rw [applyMappings_cons]
      rw [applyMappings_s2t_untouched cs _ s sc
        (fun call hc => ((List.pairwise_cons.mp hpw).1 call hc).symm)]
      exact smLookup_cons_self _ _ _ _
    · rw [applyMappings_cons]
      exact ih _ s sc t tc hmem' (List.pairwise_cons.mp hpw).2

/-- After a call sequence with pairwise-distinct target keys, the reverse
map holds exactly the pair each call wrote. -/
theorem applyMappings_member_t2s (calls : MappingCalls) :
    ∀ (sm : SourceMap) (s sc t tc : Nat),
      (s, sc, t, tc) ∈ calls →
      calls.Pairwise (fun a b => (a.2.2.1, a.2.2.2) ≠ (b.2.2.1, b.2.2.2)) →
      smLookup (applyMappings sm calls).targetToSource t tc = some ⟨s, sc⟩ := by
  induction calls with
  | nil => intro sm s sc t tc hmem _; simp at hmem
  | cons a cs ih =>
    intro sm s sc t tc hmem hpw
    rcases List.mem_cons.mp hmem with heq | hmem'
    · subst heq
      rw [applyMappings_cons]
      rw [applyMappings_t2s_untouched cs _ t tc
        (fun call hc => ((List.pairwise_cons.mp hpw).1 call hc).symm)]
      exact smLookup_cons_self _ _ _ _
    · rw [applyMappings_cons]
      exact ih _ s sc t tc hmem' (List.pairwise_cons.mp hpw).2

/-- A successful lookup implies the line map exists. -/
theorem smHasLine_of_lookup {m : SMEntries} {line col : Nat} {p : SMPos}
    (h : smLookup m line col = some p) : smHasLine m line = true := by
  unfold smLookup at h
  cases hf : m.find? (fun e => e.1 == line && e.2.1 == col) with
  | none => rw [hf] at h; simp at h
  | some e =>
    have hmem := List.mem_of_find?_eq_some hf
    have hpred := List.find?_some hf
    simp only [Bool.and_eq_true] at hpred
    exact List.any_eq_true.mpr ⟨e, hmem, hpred.1⟩

/-- An exact forward hit is returned as-is. -/
theorem TargetPositionFromSource_exact {sm : SourceMap} {line col : Nat} {p : SMPos}
    (h : smLookup sm.sourceToTarget line col = some p) :
    TargetPositionFromSource sm line col = some p := by
  unfold TargetPositionFromSource
  rw [smHasLine_of_lookup h, h]
  rfl

/-- An exact reverse hit is returned as-is. -/
theorem SourcePositionFromTarget_exact {sm : SourceMap} {line col : Nat} {p : SMPos}
    (h : smLookup sm.targetToSource line col = some p) :
    SourcePositionFromTarget sm line col = some p := by
  unfold SourcePositionFromTarget
  rw [smHasLine_of_lookup h, h]
  rfl

/-- Claim C3 (amended): for every sequence of `AddMapping` calls in which no
two calls share a source position and no two calls share a target position,
each added pair round-trips exactly: `TargetPositionFromSource` on the
source coordinates returns the paired target position, and
`SourcePositionFromTarget` on the target coordinates returns the paired
source position (in particular a source position with the same line).  The
distinctness hypotheses are forced by the counterexample: a later
`AddMapping` to the same source (or target) key overwrites that direction's
entry, leaving the older pair without its reciprocal. -/
theorem C3_addMapping_roundtrip (calls : MappingCalls) (s sc t tc : Nat)
    (hmem : (s, sc, t, tc) ∈ calls)
    (hsrc : calls.Pairwise (fun a b => (a.1, a.2.1) ≠ (b.1, b.2.1)))
    (htgt : calls.Pairwise (fun a b => (a.2.2.1, a.2.2.2) ≠ (b.2.2.1, b.2.2.2))) :
    TargetPositionFromSource (applyMappings NewSourceMap calls) s sc = some ⟨t, tc⟩ ∧
    SourcePositionFromTarget (applyMappings NewSourceMap calls) t tc = some ⟨s, sc⟩ :=
  ⟨TargetPositionFromSource_exact (applyMappings_member_s2t calls _ s sc t tc hmem hsrc),
   SourcePositionFromTarget_exact (applyMappings_member_t2s calls _ s sc t tc hmem htgt)⟩

/-- Witness for C3 at a concrete two-call sequence. -/
theorem C3_addMapping_roundtrip_witness :
    TargetPositionFromSource (applyMappings NewSourceMap [(0, 0, 1, 1), (5, 5, 2, 2)]) 0 0
        = some ⟨1, 1⟩ ∧
    SourcePositionFromTarget (applyMappings NewSourceMap [(0, 0, 1, 1), (5, 5, 2, 2)]) 1 1
        = some ⟨0, 0⟩ :=
  C3_addMapping_roundtrip [(0, 0, 1, 1), (5, 5, 2, 2)] 0 0 1 1
    (by decide) (by decide) (by decide)

/-- Counterexample to C3 as stated: with the call sequence
`AddMapping(0,0,1,1); AddMapping(0,0,2,2)` the pair `(0,0,1,1)` was added,
yet the forward lookup of source `(0,0)` does not return `(1,1)` (the second
call overwrote the entry), so the round-trip property does not hold for
every sequence of `AddMapping` calls. -/
theorem C3_overwrite_counterexample :
    (0, 0, 1, 1) ∈ ([(0, 0, 1, 1), (0, 0, 2, 2)] : MappingCalls) ∧
    TargetPositionFromSource (applyMappings NewSourceMap [(0, 0, 1, 1), (0, 0, 2, 2)]) 0 0
      ≠ some ⟨1, 1⟩ := by
  refine ⟨by decide, by decide⟩

/-- Claim C10: `Generate` never reports an error — even when the final
formatting pass fails, the unformatted text and the source map are returned
with a nil error, for every input tree and every formatter behaviour. -/
theorem C10_generate_never_errors (fuel : Nat) (fmtf : GoStr → Option GoStr)
    (file : GoxFileM) : (GoxGenerate fuel fmtf file).2.2 = none := by
  unfold GoxGenerate
  dsimp only
  split <;> rfl

/-- `writeWithMapping` only appends its text to the buffer and disturbs
neither `needsImport` nor `runtimePkg`. -/
theorem writeWithMapping_buf (st : GenSt) (s : GoStr) (a b : Nat) :
    (writeWithMapping st s a b).buf = st.buf ++ s ∧
    (writeWithMapping st s a b).needsImport = st.needsImport ∧
    (writeWithMapping st s a b).runtimePkg = st.runtimePkg := by
  unfold writeWithMapping gwrite
  split <;> exact ⟨rfl, rfl, rfl⟩

/-- On a list of pure host-code nodes, the generation loop emits exactly
their concatenated values. -/
theorem genNodes_goCode_only (nodes : List GAst) :
    ∀ (fuel : Nat) (st : GenSt),
      (∀ n ∈ nodes, ∃ v r, n = GAst.goCode v r) →
      nodes.length ≤ fuel →
      (genNodes fuel st nodes).buf = st.buf ++ concatGoValues nodes ∧
      (genNodes fuel st nodes).needsImport = st.needsImport ∧
      (genNodes fuel st nodes).runtimePkg = st.runtimePkg := by
  induction nodes with
  | nil =>
    intro fuel st _ _
    cases fuel <;> exact ⟨by simp [genNodes, concatGoValues], rfl, rfl⟩
  | cons n rest ih =>
    intro fuel st hall hfuel
    obtain ⟨v, r, rfl⟩ := hall n (List.mem_cons_self n rest)
    cases fuel with
    | zero => simp at hfuel
    | succ fuel =>
      have hgen : generateNode fuel st (GAst.goCode v r) =
          writeWithMapping st v r.start.line r.start.column := by
        cases fuel <;> rfl
      have hw := writeWithMapping_buf st v r.start.line r.start.column
      have hrest := ih fuel (generateNode fuel st (GAst.goCode v r))
        (fun m hm => hall m (List.mem_cons_of_mem _ hm))
        (by simp only [List.length_cons] at hfuel; omega)
      refine ⟨?_, ?_, ?_⟩
      · rw [genNodes, hrest.1, hgen, hw.1]
        simp [concatGoValues]
      · rw [genNodes, hrest.2.1, hgen, hw.2.1]
      · rw [genNodes, hrest.2.2, hgen, hw.2.2]

/-- Claim C2: on a tree with no markup node (only host-code nodes),
`Generate` leaves `hasJSX` false, emits exactly the concatenated host code
(so the runtime import is not injected), hands that text to the canonical
formatter, and returns the formatted text (or the text itself if
formatting fails) with no error.  The fuel must cover one step per node. -/
theorem C2_no_markup_passthrough (fuel : Nat) (fmtf : GoStr → Option GoStr)
    (path : GoStr) (nodes : List GAst)
    (hall : ∀ n ∈ nodes, ∃ v r, n = GAst.goCode v r)
    (hfuel : nodes.length ≤ fuel) :
    hasJSXFile ⟨path, nodes⟩ = false ∧
    ∃ sm, GoxGenerate fuel fmtf ⟨path, nodes⟩ =
      ((fmtf (concatGoValues nodes)).getD (concatGoValues nodes), sm, none) := by
  have hjsx : hasJSXFile ⟨path, nodes⟩ = false := by
    unfold hasJSXFile
    rw [List.any_eq_false]
    intro n hn
    obtain ⟨v, r, rfl⟩ := hall n hn
    simp
  refine ⟨hjsx, ?_⟩
  unfold GoxGenerate
  rw [hjsx]
  dsimp only
  set st0 : GenSt := { initGen with needsImport := false } with hst0
  have h := genNodes_goCode_only nodes fuel st0 hall hfuel
  rw [h.2.1]
  simp only [Bool.false_eq_true, if_false]
  rw [h.1]
  have hbuf : st0.buf = [] := rfl
  rw [hbuf, List.nil_append]
  refine ⟨(genNodes fuel st0 nodes).smap, ?_⟩
  cases hf : fmtf (concatGoValues nodes) <;> simp [hf]

/-- Witness for C2 at a concrete one-node file with a formatter that
succeeds unchanged. -/
theorem C2_no_markup_passthrough_witness :
    hasJSXFile ⟨("t.gox").toList, [GAst.goCode (("x := 1").toList) rangeZero]⟩ = false ∧
    ∃ sm, GoxGenerate 5 some ⟨("t.gox").toList, [GAst.goCode (("x := 1").toList) rangeZero]⟩ =
      ((some (concatGoValues [GAst.goCode (("x := 1").toList) rangeZero])).getD
        (concatGoValues [GAst.goCode (("x := 1").toList) rangeZero]), sm, none) :=
  C2_no_markup_passthrough 5 some (("t.gox").toList)
    [GAst.goCode (("x := 1").toList) rangeZero]
    (fun n hn => by
      simp only [List.mem_singleton] at hn
      exact ⟨("x := 1").toList, rangeZero, hn⟩)
    (by decide)

/-- `gwrite` appends its argument to the buffer. -/
theorem gwrite_buf (st : GenSt) (s : GoStr) : (gwrite st s).buf = st.buf ++ s := rfl

/-- `writeIndentG` appends to the buffer. -/
theorem writeIndentG_buf (st : GenSt) :
    (writeIndentG st).buf = st.buf ++ List.replicate st.indent '\t' := rfl

/-- Recording the element-start mapping does not touch the buffer. -/
theorem elemStartMapping_buf (st : GenSt) (r : GRange) :
    (elemStartMapping st r).buf = st.buf := by
  unfold elemStartMapping
  split <;> rfl

/-- Every emitter of the generator only appends to the output buffer. -/
theorem gen_buf_append : ∀ fuel : Nat,
    (∀ st tag attrs children r, ∃ d,
      (generateJSXElement fuel st tag attrs children r).buf = st.buf ++ d) ∧
    (∀ st tag attrs children, ∃ d,
      (generateTypedComponent fuel st tag attrs children).buf = st.buf ++ d) ∧
    (∀ st tag attrs children, ∃ d,
      (generateIntrinsicElement fuel st tag attrs children).buf = st.buf ++ d) ∧
    (∀ st x, ∃ d, (generateChildren fuel st x).buf = st.buf ++ d) ∧
    (∀ st c r, ∃ d, (generateJSXFragment fuel st c r).buf = st.buf ++ d) ∧
    (∀ st x b, ∃ d, (fragChildren fuel st x b).buf = st.buf ++ d) ∧
    (∀ st c, ∃ d, (generateJSXChild fuel st c).buf = st.buf ++ d) := by
  intro fuel
  induction fuel with
  | zero =>
    refine ⟨?_, ?_, ?_, ?_, ?_, ?_, ?_⟩
    · intro st tag attrs children r
      exact ⟨[], by simp [generateJSXElement, elemStartMapping_buf]⟩
    · intro st tag attrs children
      exact ⟨tag ++ ['('] ++ generateTypedProps attrs (tag ++ ("Props").toList) ++ [')'],
        by simp [generateTypedComponent, gwrite_buf]⟩
    · intro st tag attrs children
      exact ⟨("gox.Element(").toList ++ goQuote tag ++ (", ").toList
          ++ generateProps attrs ++ [')'],
        by simp [generateIntrinsicElement, gwrite_buf]⟩
    · intro st x
      cases x with
      | nil => exact ⟨[], by simp [generateChildren]⟩
      | cons c rest => exact ⟨[], by simp [generateChildren]⟩
    · intro st c r
      exact ⟨("gox.Fragment(").toList ++ [')'],
        by simp [generateJSXFragment, gwrite_buf, elemStartMapping_buf]⟩
    · intro st x b
      cases x with
      | nil => exact ⟨[], by simp [fragChildren]⟩
      | cons c rest => exact ⟨[], by simp [fragChildren]⟩
    · intro st c
      cases c with
      | text v r =>
        by_cases h : goTrimSpace v = ([] : GoStr)
        · exact ⟨[], by simp [generateJSXChild, h]⟩
        · exact ⟨("gox.Text(").toList ++ goQuote (goTrimSpace v) ++ [')'],
            by simp [generateJSXChild, h, gwrite_buf]⟩
      | goCode v r => exact ⟨[], by simp [generateJSXChild]⟩
      | exprNode v r => exact ⟨[], by simp [generateJSXChild]⟩
      | elem t a c s r => exact ⟨[], by simp [generateJSXChild]⟩
      | frag c r => exact ⟨[], by simp [generateJSXChild]⟩
  | succ fuel ih =>
    obtain ⟨ihElem, ihTyped, ihIntr, ihChildren, ihFrag, ihFragCh, ihChild⟩ := ih
    have hTyped : ∀ st tag attrs children, ∃ d,
        (generateTypedComponent (fuel + 1) st tag attrs children).buf = st.buf ++ d := by
      intro st tag attrs children
      obtain ⟨d1, hd1⟩ := ihChildren
        (gwrite st (tag ++ ['('] ++ generateTypedProps attrs (tag ++ ("Props").toList)))
        children
      refine ⟨tag ++ ['('] ++ generateTypedProps attrs (tag ++ ("Props").toList)
        ++ d1 ++ [')'], ?_⟩
      show (gwrite (generateChildren fuel
        (gwrite st (tag ++ ['('] ++ generateTypedProps attrs (tag ++ ("Props").toList)))
        children) [')']).buf = _
      rw [gwrite_buf, hd1, gwrite_buf]
      simp
    have hIntr : ∀ st tag attrs children, ∃ d,
        (generateIntrinsicElement (fuel + 1) st tag attrs children).buf = st.buf ++ d := by
      intro st tag attrs children
      obtain ⟨d1, hd1⟩ := ihChildren
        (gwrite st (("gox.Element(").toList ++ goQuote tag ++ (", ").toList
          ++ generateProps attrs)) children
      refine ⟨("gox.Element(").toList ++ goQuote tag ++ (", ").toList
        ++ generateProps attrs ++ d1 ++ [')'], ?_⟩
      show (gwrite (generateChildren fuel
        (gwrite st (("gox.Element(").toList ++ goQuote tag ++ (", ").toList
          ++ generateProps attrs)) children) [')']).buf = _
      rw [gwrite_buf, hd1, gwrite_buf]
      simp
    have hElem : ∀ st tag attrs children r, ∃ d,
        (generateJSXElement (fuel + 1) st tag attrs children r).buf = st.buf ++ d := by
      intro st tag attrs children r
      have hred : generateJSXElement (fuel + 1) st tag attrs children r =
          (if goxIsComponent tag then
            generateTypedComponent fuel (elemStartMapping st r) tag attrs children
          else generateIntrinsicElement fuel (elemStartMapping st r) tag attrs children) := rfl
      rw [hred]
      by_cases hc : goxIsComponent tag
      · obtain ⟨d, hd⟩ := ihTyped (elemStartMapping st r) tag attrs children
        exact ⟨d, by rw [if_pos hc, hd, elemStartMapping_buf]⟩
      · obtain ⟨d, hd⟩ := ihIntr (elemStartMapping st r) tag attrs children
        exact ⟨d, by rw [if_neg hc, hd, elemStartMapping_buf]⟩
    have hFragCh : ∀ st x b, ∃ d,
        (fragChildren (fuel + 1) st x b).buf = st.buf ++ d := by
      intro st x b
      cases x with
      | nil => exact ⟨[], by simp [fragChildren]⟩
      | cons c rest =>
        by_cases hs : skipChild c = true
        · obtain ⟨d, hd⟩ := ihFragCh st rest b
          exact ⟨d, by rw [fragChildren, if_pos hs]; exact hd⟩
        · set st1 := if !b then writeIndentG (gwrite st ((",\n").toList)) else st with hst1
          obtain ⟨d1, hd1⟩ := ihChild st1 c
          obtain ⟨d2, hd2⟩ := ihFragCh (generateJSXChild fuel st1 c) rest false
          have hb1 : st1.buf = st.buf ++ (if !b then (",\n").toList
              ++ List.replicate st.indent '\t' else []) := by
            rw [hst1]
            cases b <;> simp [writeIndentG_buf, gwrite_buf, writeIndentG, gwrite]
          refine ⟨(if !b then (",\n").toList ++ List.replicate st.indent '\t' else [])
            ++ d1 ++ d2, ?_⟩
          rw [fragChildren, if_neg hs, ← hst1, hd2, hd1, hb1]
          simp
    have hFrag : ∀ st c r, ∃ d,
        (generateJSXFragment (fuel + 1) st c r).buf = st.buf ++ d := by
      intro st c r
      obtain ⟨d1, hd1⟩ := ihFragCh (gwrite (elemStartMapping st r) (("gox.Fragment(").toList)) c true
      refine ⟨("gox.Fragment(").toList ++ d1 ++ [')'], ?_⟩
      show (gwrite (fragChildren fuel
        (gwrite (elemStartMapping st r) (("gox.Fragment(").toList)) c true) [')']).buf = _
      rw [gwrite_buf, hd1, gwrite_buf, elemStartMapping_buf]
      simp
    have hChildren : ∀ st x, ∃ d,
        (generateChildren (fuel + 1) st x).buf = st.buf ++ d := by
      intro st x
      cases x with
      | nil => exact ⟨[], by simp [generateChildren]⟩
      | cons c rest =>
        by_cases hs : skipChild c = true
        · obtain ⟨d, hd⟩ := ihChildren st rest
          exact ⟨d, by rw [generateChildren, if_pos hs]; exact hd⟩
        · set st1 := writeIndentG (gwrite st ((",\n").toList)) with hst1
          obtain ⟨d1, hd1⟩ := ihChild st1 c
          obtain ⟨d2, hd2⟩ := ihChildren (generateJSXChild fuel st1 c) rest
          have hb1 : st1.buf = st.buf ++ ((",\n").toList ++ List.replicate st.indent '\t') := by
            rw [hst1]
            simp [writeIndentG, gwrite]
          refine ⟨(",\n").toList ++ List.replicate st.indent '\t' ++ d1 ++ d2, ?_⟩
          rw [generateChildren, if_neg hs, ← hst1, hd2, hd1, hb1]
          simp
    have hChild : ∀ st c, ∃ d,
        (generateJSXChild (fuel + 1) st c).buf = st.buf ++ d := by
      intro st c
      cases c with
      | text v r =>
        by_cases h : goTrimSpace v = ([] : GoStr)
        · exact ⟨[], by simp [generateJSXChild, h]⟩
        · exact ⟨("gox.Text(").toList ++ goQuote (goTrimSpace v) ++ [')'],
            by simp [generateJSXChild, h, gwrite_buf]⟩
      | goCode v r => exact ⟨[], by simp [generateJSXChild]⟩
      | exprNode v r =>
        by_cases h : goTrimSpace v = ([] : GoStr) ∨ isCommentOnly (goTrimSpace v) = true
        · refine ⟨[], ?_⟩
          rw [generateJSXChild]
          have : (goTrimSpace v == ([] : GoStr) || isCommentOnly (goTrimSpace v)) = true := by
            rcases h with h | h
            · simp [h]
            · simp [h]
          rw [if_pos this]
          simp
        · push_neg at h
          have hcond : (goTrimSpace v == ([] : GoStr) || isCommentOnly (goTrimSpace v)) = false := by
            simp only [Bool.or_eq_false_iff, beq_eq_false_iff_ne]
            exact ⟨h.1, by simpa using h.2⟩
          rw [generateJSXChild, if_neg (by rw [hcond]; simp)]
          cases hidx : indexOfSub (transformExpressionJSX fuel st.runtimePkg (goTrimSpace v)) ((" && ").toList) with
          | some idx =>
            simp only [hidx]
            exact ⟨_, gwrite_buf _ _⟩
          | none =>
            simp only [hidx]
            exact ⟨_, gwrite_buf _ _⟩
      | elem t a c s r =>
        obtain ⟨d, hd⟩ := ihElem st t a c r
        exact ⟨d, by rw [generateJSXChild]; exact hd⟩
      | frag c r =>
        obtain ⟨d, hd⟩ := ihFrag st c r
        exact ⟨d, by rw [generateJSXChild]; exact hd⟩
    exact ⟨hElem, hTyped, hIntr, hChildren, hFrag, hFragCh, hChild⟩

/-- Claim C1 (amended): the generator's choice of emission for an element
is fully determined by the first BYTE of the tag name (the Go code tests
`unicode.IsUpper(rune(elem.Tag[0]))`): when that byte, read as a code
point, is an uppercase letter the typed component call
`Tag(TagProps{...}, ...)` is emitted, and otherwise the generic intrinsic
call `gox.Element("tag", props, ...)` is emitted — never both.  For tags
whose first character is ASCII this coincides with the case of the first
character; for a multi-byte first character it does not (see the
counterexample). -/
theorem C1_case_of_first_byte (fuel : Nat) (st : GenSt) (tag : GoStr)
    (attrs : List GAttr) (children : List GAst) (r : GRange) :
    (goxIsComponent tag = true → ∃ d,
      (generateJSXElement (fuel + 1) st tag attrs children r).buf =
        st.buf ++ tag ++ ['('] ++ generateTypedProps attrs (tag ++ ("Props").toList) ++ d) ∧
    (goxIsComponent tag = false → ∃ d,
      (generateJSXElement (fuel + 1) st tag attrs children r).buf =
        st.buf ++ ("gox.Element(").toList ++ goQuote tag ++ (", ").toList
          ++ generateProps attrs ++ d) := by
  have hred : generateJSXElement (fuel + 1) st tag attrs children r =
      (if goxIsComponent tag then
        generateTypedComponent fuel (elemStartMapping st r) tag attrs children
      else generateIntrinsicElement fuel (elemStartMapping st r) tag attrs children) := rfl
  constructor
  · intro hc
    rw [hred, if_pos hc]
    cases fuel with
    | zero =>
      exact ⟨[')'], by simp [generateTypedComponent, gwrite_buf, elemStartMapping_buf]⟩
    | succ fuel =>
      obtain ⟨d1, hd1⟩ := (gen_buf_append fuel).2.2.2.1
        (gwrite (elemStartMapping st r)
          (tag ++ ['('] ++ generateTypedProps attrs (tag ++ ("Props").toList))) children
      refine ⟨d1 ++ [')'], ?_⟩
      show (gwrite (generateChildren fuel
        (gwrite (elemStartMapping st r)
          (tag ++ ['('] ++ generateTypedProps attrs (tag ++ ("Props").toList))) children)
        [')']).buf = _
      rw [gwrite_buf, hd1, gwrite_buf, elemStartMapping_buf]
      simp
  · intro hc
    rw [hred, if_neg (by rw [hc]; simp)]
    cases fuel with
    | zero =>
      exact ⟨[')'], by simp [generateIntrinsicElement, gwrite_buf, elemStartMapping_buf]⟩
    | succ fuel =>
      obtain ⟨d1, hd1⟩ := (gen_buf_append fuel).2.2.2.1
        (gwrite (elemStartMapping st r)
          (("gox.Element(").toList ++ goQuote tag ++ (", ").toList ++ generateProps attrs))
        children
      refine ⟨d1 ++ [')'], ?_⟩
      show (gwrite (generateChildren fuel
        (gwrite (elemStartMapping st r)
          (("gox.Element(").toList ++ goQuote tag ++ (", ").toList ++ generateProps attrs))
        children) [')']).buf = _
      rw [gwrite_buf, hd1, gwrite_buf, elemStartMapping_buf]
      simp

/-- Witness for C1 at a concrete component tag. -/
theorem C1_case_of_first_byte_witness :
    goxIsComponent (("Foo").toList) = true ∧
    ∃ d, (generateJSXElement 1 initGen (("Foo").toList) [] [] rangeZero).buf =
      initGen.buf ++ ("Foo").toList ++ ['(']
        ++ generateTypedProps [] (("Foo").toList ++ ("Props").toList) ++ d :=
  ⟨by decide,
   (C1_case_of_first_byte 0 initGen (("Foo").toList) [] [] rangeZero).1 (by decide)⟩

/-- Counterexample to C1 as stated: the tag `é` does not start with an
uppercase LETTER (é is lowercase), so the claim demands the generic
intrinsic emission `gox.Element("é", nil)`; but é's first UTF-8 byte is
0xC3, which read as a code point is the uppercase letter Ã, so the code
emits the typed component call `é(éProps{})` instead. -/
theorem C1_first_byte_counterexample :
    specFirstCharUpper (("é").toList) = false ∧
    (generateJSXElement 1 initGen (("é").toList) [] [] rangeZero).buf
      = ("é(éProps").toList ++ [chLBrace, chRBrace] ++ [')'] ∧
    (generateJSXElement 1 initGen (("é").toList) [] [] rangeZero).buf
      ≠ ("gox.Element(").toList ++ goQuote (("é").toList) ++ (", ").toList
          ++ generateProps [] := by
  refine ⟨by decide, by decide, by decide⟩

/-- A pattern cannot match at or past the end of the string. -/
theorem subAt_false_of_ge (s p : GoStr) (hp : p ≠ []) (k : Nat)
    (hk : s.length ≤ k) : subAt s p k = false := by
  unfold subAt
  rw [List.drop_eq_nil_of_le hk]
  cases p with
  | nil => exact absurd rfl hp
  | cons a as => rfl

/-- Characterization of the scan: a hit is the first matching position in
the scanned window. -/
theorem indexOfSubGo_some_iff (s p : GoStr) : ∀ (fuel i k : Nat),
    (indexOfSubGo s p i fuel = some k ↔
      i ≤ k ∧ k < i + fuel ∧ subAt s p k = true ∧
        ∀ j, i ≤ j → j < k → subAt s p j = false) := by
  intro fuel
  induction fuel with
  | zero =>
    intro i k
    constructor
    · intro h; exact absurd h (by simp [indexOfSubGo])
    · rintro ⟨h1, h2, _⟩; omega
  | succ fuel ih =>
    intro i k
    by_cases hi : subAt s p i = true
    · rw [indexOfSubGo, if_pos hi]
      constructor
      · intro h
        have hk : k = i := (Option.some.inj h).symm
        subst hk
        exact ⟨le_refl _, by omega, hi, fun j h1 h2 => by omega⟩
      · rintro ⟨h1, h2, hk, hmin⟩
        have : k = i := by
          by_contra hne
          have := hmin i (le_refl i) (by omega)
          rw [this] at hi
          exact Bool.noConfusion hi
        rw [this]
    · rw [indexOfSubGo, if_neg hi]
      rw [ih (i + 1) k]
      constructor
      · rintro ⟨h1, h2, hk, hmin⟩
        exact ⟨by omega, by omega, hk, fun j hj1 hj2 => by
          by_cases hji : j = i
          · subst hji; exact Bool.eq_false_iff.mpr hi |>.symm ▸ (by
              cases h : subAt s p j
              · rfl
              · exact absurd h hi)
          · exact hmin j (by omega) hj2⟩
      · rintro ⟨h1, h2, hk, hmin⟩
        have hki : ¬ k = i := by
          intro hke; subst hke; exact hi hk
        exact ⟨by omega, by omega, hk, fun j hj1 hj2 => hmin j (by omega) hj2⟩

/-- Characterization of a failed scan. -/
theorem indexOfSubGo_none_iff (s p : GoStr) : ∀ (fuel i : Nat),
    (indexOfSubGo s p i fuel = none ↔
      ∀ j, i ≤ j → j < i + fuel → subAt s p j = false) := by
  intro fuel
  induction fuel with
  | zero =>
    intro i
    simp only [indexOfSubGo]
    constructor
    · intro _ j h1 h2; omega
    · intro _; trivial
  | succ fuel ih =>
    intro i
    by_cases hi : subAt s p i = true
    · rw [indexOfSubGo, if_pos hi]
      constructor
      · intro h; exact Option.noConfusion h
      · intro h
        have := h i (le_refl i) (by omega)
        rw [this] at hi
        exact Bool.noConfusion hi
    · rw [indexOfSubGo, if_neg hi, ih (i + 1)]
      constructor
      · intro h j hj1 hj2
        by_cases hji : j = i
        · subst hji
          cases hsb : subAt s p j
          · rfl
          · exact absurd hsb hi
        · exact h j (by omega) (by omega)
      · intro h j hj1 hj2
        exact h j (by omega) (by omega)

/-- `strings.Index` finds exactly the first occurrence. -/
theorem indexOfSub_some_iff (s p : GoStr) (hp : p ≠ []) (k : Nat) :
    indexOfSub s p = some k ↔
      subAt s p k = true ∧ ∀ j, j < k → subAt s p j = false := by
  unfold indexOfSub
  rw [indexOfSubGo_some_iff s p (s.length + 1) 0 k]
  constructor
  · rintro ⟨_, _, hk, hmin⟩
    exact ⟨hk, fun j hj => hmin j (Nat.zero_le j) hj⟩
  · rintro ⟨hk, hmin⟩
    refine ⟨Nat.zero_le k, ?_, hk, fun j _ hj => hmin j hj⟩
    by_contra hge
    have hlen : s.length ≤ k := by omega
    rw [subAt_false_of_ge s p hp k hlen] at hk
    exact Bool.noConfusion hk

/-- `strings.Index` misses exactly when no position matches. -/
theorem indexOfSub_none_iff (s p : GoStr) (hp : p ≠ []) :
    indexOfSub s p = none ↔ ∀ j, subAt s p j = false := by
  unfold indexOfSub
  rw [indexOfSubGo_none_iff s p (s.length + 1) 0]
  constructor
  · intro h j
    by_cases hj : j < s.length + 1
    · exact h j (Nat.zero_le j) (by omega)
    · exact subAt_false_of_ge s p hp j (by omega)
  · intro h j _ _
    exact h j

/-- Claim C9 (amended): a kept expression child is JSX-transformed and then
tested TEXTUALLY for the substring `" && "`: if it occurs anywhere (even
inside a string literal or nested call), the text is split at its first
occurrence into `gox.When(before, after)` (both sides trimmed); only when
the substring occurs nowhere is the text wrapped as `gox.V(...)`.  The
recognition is not the syntactic form `condition && node`: any occurrence
of the spaced substring triggers the rewrite, and `&&` without spaces never
does. -/
theorem C9_expression_children (fuel : Nat) (st : GenSt) (e : GoStr) (r : GRange)
    (hne : goTrimSpace e ≠ []) (hnc : isCommentOnly (goTrimSpace e) = false) :
    ((∃ i, subAt (transformExpressionJSX fuel st.runtimePkg (goTrimSpace e)) andSep i = true) →
      ∃ i, subAt (transformExpressionJSX fuel st.runtimePkg (goTrimSpace e)) andSep i = true ∧
        (∀ j, j < i →
          subAt (transformExpressionJSX fuel st.runtimePkg (goTrimSpace e)) andSep j = false) ∧
        (generateJSXChild (fuel + 1) st (.exprNode e r)).buf =
          st.buf ++ ("gox.When(").toList
            ++ goTrimSpace ((transformExpressionJSX fuel st.runtimePkg (goTrimSpace e)).take i)
            ++ (", ").toList
            ++ goTrimSpace ((transformExpressionJSX fuel st.runtimePkg (goTrimSpace e)).drop (i + 4))
            ++ [')']) ∧
    ((∀ i, subAt (transformExpressionJSX fuel st.runtimePkg (goTrimSpace e)) andSep i = false) →
      (generateJSXChild (fuel + 1) st (.exprNode e r)).buf =
        st.buf ++ ("gox.V(").toList
          ++ transformExpressionJSX fuel st.runtimePkg (goTrimSpace e) ++ [')']) := by
  have hcond : (goTrimSpace e == ([] : GoStr) || isCommentOnly (goTrimSpace e)) = false := by
    simp only [Bool.or_eq_false_iff, beq_eq_false_iff_ne]
    exact ⟨hne, hnc⟩
  have hsep : andSep ≠ [] := by decide
  have hred : generateJSXChild (fuel + 1) st (.exprNode e r) =
      (match indexOfSub (transformExpressionJSX fuel st.runtimePkg (goTrimSpace e))
          ((" && ").toList) with
        | some idx =>
          gwrite st (("gox.When(").toList
            ++ goTrimSpace ((transformExpressionJSX fuel st.runtimePkg (goTrimSpace e)).take idx)
            ++ (", ").toList
            ++ goTrimSpace ((transformExpressionJSX fuel st.runtimePkg (goTrimSpace e)).drop (idx + 4))
            ++ [')'])
        | none =>
          gwrite st (("gox.V(").toList
            ++ transformExpressionJSX fuel st.runtimePkg (goTrimSpace e) ++ [')'])) := by
    rw [generateJSXChild, if_neg (by rw [hcond]; simp)]
  cases hidx : indexOfSub (transformExpressionJSX fuel st.runtimePkg (goTrimSpace e))
      ((" && ").toList) with
  | some idx =>
    have hchar := (indexOfSub_some_iff _ _ hsep idx).mp hidx
    constructor
    · intro _
      refine ⟨idx, hchar.1, hchar.2, ?_⟩
      rw [hred, hidx, gwrite_buf]
      simp
    · intro hall
      have := hall idx
      rw [hchar.1] at this
      exact Bool.noConfusion this
  | none =>
    have hchar := (indexOfSub_none_iff _ _ hsep).mp hidx
    constructor
    · rintro ⟨i, hi⟩
      rw [hchar i] at hi
      exact Bool.noConfusion hi
    · intro _
      rw [hred, hidx, gwrite_buf]
      simp

/-- Witness for C9: the idiomatic `ok && x` becomes `gox.When(ok, x)`. -/
theorem C9_expression_children_witness :
    (generateJSXChild 5 initGen (.exprNode (("ok && x").toList) rangeZero)).buf
      = ("gox.When(ok, x)").toList := by
  obtain ⟨i, hsub, hmin, hbuf⟩ :=
    (C9_expression_children 4 initGen (("ok && x").toList) rangeZero
      (by decide) (by decide)).1 ⟨2, by decide⟩
  have hi : i = 2 := by
    by_contra hne2
    rcases Nat.lt_or_ge i 2 with hlt | hge
    · interval_cases i <;> revert hsub <;> decide
    · have h2 : (2 : Nat) < i := by omega
      have := hmin 2 h2
      revert this; decide
  subst hi
  revert hbuf
  decide

/-- Counterexample to C9 as stated: `f(" && ")` is a single call expression
(not of the form `condition && node` — the only `" && "` occurrence sits
inside a string literal, and neither side of that split is a complete
expression), yet the generator rewrites it into a `gox.When` call instead
of wrapping it in `gox.V`. -/
theorem C9_textual_and_counterexample :
    specCondAndNode (("f(\" && \")").toList) = false ∧
    (generateJSXChild 5 initGen (.exprNode (("f(\" && \")").toList) rangeZero)).buf
      = ("gox.When(f(\", \"))").toList ∧
    (generateJSXChild 5 initGen (.exprNode (("f(\" && \")").toList) rangeZero)).buf
      ≠ ("gox.V(f(\" && \"))").toList := by
  refine ⟨by decide, by decide, by decide⟩

/-- An element with no children satisfies the self-closing invariant. -/
theorem selfClosingOKb_elem_nochildren (t : GoStr) (a : List GAttr) (s : Bool)
    (r : GRange) : selfClosingOKb (.elem t a [] s r) = true := by
  rw [selfClosingOKb]
  cases s <;> rfl

/-- A non-self-closing element satisfies the invariant exactly when its
children do. -/
theorem selfClosingOKb_elem_open (t : GoStr) (a : List GAttr) (c : List GAst)
    (r : GRange) : selfClosingOKb (.elem t a c false r) = selfClosingOKList c := by
  rw [selfClosingOKb]
  simp

/-- The self-closing invariant holds of everything every parser entry point
produces, for every fuel and every parser state. -/
theorem parse_selfClosing_inv : ∀ fuel : Nat,
    (∀ p, selfClosingOKList (parseTop fuel p).1 = true) ∧
    (∀ p n, (parseNode fuel p).1 = some n → selfClosingOKb n = true) ∧
    (∀ p n, (parseJSXElement fuel p).1 = some n → selfClosingOKb n = true) ∧
    (∀ rng p n, (parseJSXFragment fuel rng p).1 = some n → selfClosingOKb n = true) ∧
    (∀ tag p, selfClosingOKList (parseJSXChildren fuel tag p).1 = true) := by
  intro fuel
  induction fuel with
  | zero =>
    refine ⟨fun p => rfl, fun p n h => ?_, fun p n h => ?_, fun rng p n h => ?_,
      fun tag p => rfl⟩
    · exact Option.noConfusion h
    · exact Option.noConfusion h
    · exact Option.noConfusion h
  | succ fuel ih =>
    obtain ⟨ihTop, ihNode, ihElem, ihFrag, ihChildren⟩ := ih
    have hChildren : ∀ tag p,
        selfClosingOKList (parseJSXChildren (fuel + 1) tag p).1 = true := by
      intro tag p
      rw [parseJSXChildren]
      split
      · rfl
      · rfl
      · -- JSX_OPEN
        split
        · rfl
        · dsimp only
          split
          · rename_i heq
            rw [selfClosingOKList, Bool.and_eq_true]
            exact ⟨ihElem p _ heq, ihChildren tag _⟩
          · exact ihChildren tag _
      · -- JSX_FRAG_OPEN
        dsimp only
        split
        · rename_i heq
          rw [selfClosingOKList, Bool.and_eq_true]
          exact ⟨ihElem p _ heq, ihChildren tag _⟩
        · exact ihChildren tag _
      · -- JSX_TEXT
        dsimp only
        rw [selfClosingOKList, Bool.and_eq_true]
        exact ⟨rfl, ihChildren tag _⟩
      · -- JSX_EXPR
        dsimp only
        rw [selfClosingOKList, Bool.and_eq_true]
        exact ⟨rfl, ihChildren tag _⟩
      · exact ihChildren tag _
    have hFrag : ∀ rng p n, (parseJSXFragment (fuel + 1) rng p).1 = some n →
        selfClosingOKb n = true := by
      intro rng p n h
      rw [parseJSXFragment] at h
      dsimp only at h
      have hn := Option.some.inj h
      subst hn
      rw [selfClosingOKb]
      exact ihChildren [] (padvance p)
    have hElem : ∀ p n, (parseJSXElement (fuel + 1) p).1 = some n →
        selfClosingOKb n = true := by
      intro p n h
      rw [parseJSXElement] at h
      dsimp only at h
      generalize hAR : parseJSXAttributes fuel (padvance (padvance p)) = AR at h
      generalize hCR : parseJSXChildren fuel (cur (padvance p)).value (padvance AR.2) = CR at h
      by_cases hc1 : ((cur p).type == TokenType.JSX_FRAG_OPEN) = true
      · rw [if_pos hc1] at h
        exact ihFrag _ p n h
      · rw [if_neg hc1] at h
        by_cases hc2 : (!((cur p).type == TokenType.JSX_OPEN)) = true
        · rw [if_pos hc2] at h
          exact Option.noConfusion h
        · rw [if_neg hc2] at h
          by_cases hc3 : (!((cur (padvance p)).type == TokenType.JSX_TAG)) = true
          · rw [if_pos hc3] at h
            exact Option.noConfusion h
          · rw [if_neg hc3] at h
            by_cases hc4 : ((cur AR.2).type == TokenType.JSX_SLASH) = true
            · rw [if_pos hc4] at h
              have hn := Option.some.inj h
              subst hn
              exact selfClosingOKb_elem_nochildren _ _ _ _
            · rw [if_neg hc4] at h
              by_cases hc5 : (!((cur AR.2).type == TokenType.JSX_CLOSE)) = true
              · rw [if_pos hc5] at h
                have hn := Option.some.inj h
                subst hn
                exact selfClosingOKb_elem_nochildren _ _ _ _
              · rw [if_neg hc5] at h
                have hn := Option.some.inj h
                subst hn
                rw [selfClosingOKb_elem_open, ← hCR]
                exact ihChildren _ _
    have hNode : ∀ p n, (parseNode (fuel + 1) p).1 = some n →
        selfClosingOKb n = true := by
      intro p n h
      rw [parseNode] at h
      split at h
      · dsimp only [parseGoCode] at h
        have hn := Option.some.inj h
        subst hn
        rfl
      · exact ihElem p n h
      · exact ihElem p n h
      · exact Option.noConfusion h
      · exact Option.noConfusion h
    have hTop : ∀ p, selfClosingOKList (parseTop (fuel + 1) p).1 = true := by
      intro p
      rw [parseTop]
      split
      · rfl
      · dsimp only
        split
        · rename_i heq
          rw [selfClosingOKList, Bool.and_eq_true]
          exact ⟨ihNode p _ heq, ihTop _⟩
        · exact ihTop _
    exact ⟨hTop, hNode, hElem, hFrag, hChildren⟩

/-- Claim C5: for every input and every fuel, every element node anywhere
in the tree the parser produces satisfies: if its `SelfClosing` flag is
set, its children list is empty (`selfClosingOKb` states exactly this,
recursively through children). -/
theorem C5_selfClosing_no_children (fuel : Nat) (filename src : GoStr) :
    selfClosingOKList (Parse fuel filename src).1.nodes = true := by
  unfold Parse
  dsimp only
  exact (parse_selfClosing_inv fuel).1 _

/-- Claim C4: parsing `<a>text</b>` with differing tag names records
exactly one error, of the form
`file:line:col: mismatched closing tag: expected </a>, got </b>`
(at the closing tag-name token's position), consumes the whole mismatched
closing tag, and returns an element whose tag is still `a` with the text
child intact, leaving parsing to continue at the following tokens. -/
theorem C4_mismatched_closing_tag (fuel : Nat) (fname a b text : GoStr)
    (rest : List Token) (errs : List GoStr)
    (o1 l1 c1 o2 l2 c2 o3 l3 c3 o4 l4 c4 o5 l5 c5 o6 l6 c6 o7 l7 c7 : Nat)
    (hne : a ≠ b) :
    parseJSXElement (fuel + 3)
      ⟨⟨.JSX_OPEN, ['<'], o1, l1, c1⟩ :: ⟨.JSX_TAG, a, o2, l2, c2⟩ ::
        ⟨.JSX_CLOSE, ['>'], o3, l3, c3⟩ :: ⟨.JSX_TEXT, text, o4, l4, c4⟩ ::
        ⟨.JSX_OPEN, ['<', '/'], o5, l5, c5⟩ :: ⟨.JSX_TAG, b, o6, l6, c6⟩ ::
        ⟨.JSX_CLOSE, ['>'], o7, l7, c7⟩ :: rest, errs, fname⟩ =
      (some (.elem a []
          [.text text ⟨⟨o4, l4, c4⟩, ⟨o4 + utf8Len text, l4, c4 + utf8Len text⟩⟩]
          false
          ⟨⟨o1, l1, c1⟩,
           ⟨(rest.headD defaultEOF).offset, (rest.headD defaultEOF).line,
            (rest.headD defaultEOF).column⟩⟩),
       ⟨rest,
        errs ++ [fname ++ [':'] ++ natToStr l6 ++ [':'] ++ natToStr c6
          ++ (": mismatched closing tag: expected </").toList ++ a
          ++ (">, got </").toList ++ b ++ ['>']],
        fname⟩) := by
  have hba : (b == a) = false := by
    rw [beq_eq_false_iff_ne]
    exact fun hh => hne hh.symm
  have hlen : utf8Len (['<', '/'] : GoStr) = 2 := by decide
  simp [parseJSXElement, parseJSXAttributes, parseJSXChildren, parseJSXAttribute,
    cur, padvance, isClosingTag, perror, tokenRange, prevPosition, defaultEOF,
    hba, hlen]

/-- Witness for C4: the input string `<a>x</b>` lexes to exactly the token
shape the theorem requires and parses with the single mismatch error. -/
theorem C4_mismatched_closing_tag_witness :
    tokenize 100 (("<a>x</b>").toList) =
      ⟨.JSX_OPEN, ['<'], 0, 1, 1⟩ :: ⟨.JSX_TAG, ("a").toList, 1, 1, 2⟩ ::
        ⟨.JSX_CLOSE, ['>'], 2, 1, 3⟩ :: ⟨.JSX_TEXT, ("x").toList, 3, 1, 4⟩ ::
        ⟨.JSX_OPEN, ['<', '/'], 4, 1, 5⟩ :: ⟨.JSX_TAG, ("b").toList, 6, 1, 7⟩ ::
        ⟨.JSX_CLOSE, ['>'], 7, 1, 8⟩ :: [] ∧
    parseJSXElement 3 ⟨tokenize 100 (("<a>x</b>").toList), [], ("test.gox").toList⟩ =
      (some (.elem (("a").toList) []
          [.text (("x").toList) ⟨⟨3, 1, 4⟩, ⟨4, 1, 5⟩⟩] false ⟨⟨0, 1, 1⟩, ⟨0, 0, 0⟩⟩),
       ⟨[], [("test.gox:1:7: mismatched closing tag: expected </a>, got </b>").toList],
        ("test.gox").toList⟩) := by
  have htok : tokenize 100 (("<a>x</b>").toList) =
      ⟨.JSX_OPEN, ['<'], 0, 1, 1⟩ :: ⟨.JSX_TAG, ("a").toList, 1, 1, 2⟩ ::
        ⟨.JSX_CLOSE, ['>'], 2, 1, 3⟩ :: ⟨.JSX_TEXT, ("x").toList, 3, 1, 4⟩ ::
        ⟨.JSX_OPEN, ['<', '/'], 4, 1, 5⟩ :: ⟨.JSX_TAG, ("b").toList, 6, 1, 7⟩ ::
        ⟨.JSX_CLOSE, ['>'], 7, 1, 8⟩ :: [] := by decide
  refine ⟨htok, ?_⟩
  rw [htok]
  have h := C4_mismatched_closing_tag 0 (("test.gox").toList) (("a").toList)
    (("b").toList) (("x").toList) [] [] 0 1 1 1 1 2 2 1 3 3 1 4 4 1 5 6 1 7 7 1 8
    (by decide)
  exact h.trans (by rfl)

/-- Characters agreeing on `toNat` are equal. -/
theorem char_toNat_inj {c d : Char} (h : c.toNat = d.toNat) : c = d := by
  cases c; cases d
  simp only [Char.toNat] at h
  congr 1
  exact UInt32.ext h

/-- For an ASCII rune the first UTF-8 byte is the code point itself. -/
theorem utf8FirstByte_ascii (c : Char) (h : c.toNat < 0x80) :
    utf8FirstByte c = c.toNat := by
  unfold utf8FirstByte
  rw [if_pos h]

/-- For a non-ASCII rune the first UTF-8 byte is at least 0xC0. -/
theorem utf8FirstByte_ge (c : Char) (h : ¬ c.toNat < 0x80) :
    0xC0 ≤ utf8FirstByte c := by
  unfold utf8FirstByte
  rw [if_neg h]
  split
  · exact Nat.le_add_right _ _
  · split
    · calc (0xC0 : Nat) ≤ 0xE0 := by omega
        _ ≤ 0xE0 + c.toNat / 4096 := Nat.le_add_right _ _
    · calc (0xC0 : Nat) ≤ 0xF0 := by omega
        _ ≤ 0xF0 + c.toNat / 262144 := Nat.le_add_right _ _

/-- The first UTF-8 byte equals an ASCII value exactly for that rune. -/
theorem utf8FirstByte_eq_ascii_iff (c : Char) (n : Nat) (hn : n < 0x80) (d : Char)
    (hd : d.toNat = n) : utf8FirstByte c = n ↔ c = d := by
  constructor
  · intro h
    by_cases hc : c.toNat < 0x80
    · rw [utf8FirstByte_ascii c hc] at h
      exact char_toNat_inj (h.trans hd.symm)
    · have := utf8FirstByte_ge c hc
      omega
  · intro h
    subst h
    rw [utf8FirstByte_ascii c (by omega)]
    exact hd

/-- Claim C8 (amended): in host-code mode, a `<` followed by an ASCII
character is recognized as markup start exactly when that character is an
identifier-start character, is `>`, or is `/` immediately followed by `>`;
a `/` followed by an identifier (a closing tag such as `</d`) is NOT
recognized.  A `<` used as a comparison operator, or markup-looking text
inside a Go string literal (which the host-code scan skips wholesale),
stays inside the host-code token. -/
theorem C8_markup_start_condition :
    (∀ (l : LexState) (c : Char) (t : GoStr), l.rest = '<' :: c :: t →
      c.toNat < 0x80 →
      (isJSXStart l = true ↔
        (isIdentStart c = true ∨ c = '>' ∨ (c = '/' ∧ t.headD (Char.ofNat 0) = '>')))) ∧
    (nextToken (newLexer (("y := x < 10").toList))).1 =
      ⟨.GO_CODE, ("y := x < 10").toList, 0, 1, 1⟩ ∧
    (nextToken (newLexer (("s := \"<a>\" + y; z < 3").toList))).1 =
      ⟨.GO_CODE, ("s := \"<a>\" + y; z < 3").toList, 0, 1, 1⟩ := by
  refine ⟨?_, by decide, by decide⟩
  intro l c t hrest hascii
  obtain ⟨rest, pos, line, col, inJSX, jd, bd, inTag, ict, ss, ntn⟩ := l
  dsimp only at hrest
  subst hrest
  have hred : isJSXStart ⟨'<' :: c :: t, pos, line, col, inJSX, jd, bd, inTag, ict, ss, ntn⟩ =
      (if utf8FirstByte c == 62 then true
       else if utf8FirstByte c == 47 then
         match t with
         | c2 :: _ => utf8FirstByte c2 == 62
         | [] => false
       else isIdentStart (Char.ofNat (utf8FirstByte c))) := rfl
  rw [hred]
  by_cases h62 : c = '>'
  · subst h62
    have hfb : utf8FirstByte '>' = 62 := by decide
    rw [hfb]
    simp
  · by_cases h47 : c = '/'
    · subst h47
      have hfb : utf8FirstByte '/' = 47 := by decide
      rw [hfb]
      have hid : isIdentStart '/' = false := by decide
      cases t with
      | nil =>
        simp only [beq_self_eq_true, if_true, if_neg (by decide : ¬((47 : Nat) == 62) = true)]
        constructor
        · intro h; exact Bool.noConfusion h
        · rintro (h | h | ⟨_, h⟩)
          · rw [hid] at h; exact Bool.noConfusion h
          · exact absurd h (by decide)
          · exact absurd h (by decide)
      | cons c2 t2 =>
        simp only [if_neg (by decide : ¬((47 : Nat) == 62) = true), if_pos
          (by decide : ((47 : Nat) == 47) = true)]
        constructor
        · intro h
          refine Or.inr (Or.inr ⟨by trivial, ?_⟩)
          have hfb2 : utf8FirstByte c2 = 62 := beq_iff_eq.mp h
          exact (utf8FirstByte_eq_ascii_iff c2 62 (by omega) '>' (by decide)).mp hfb2
        · rintro (h | h | ⟨_, h⟩)
          · rw [hid] at h; exact Bool.noConfusion h
          · exact absurd h (by decide)
          · dsimp only [List.headD] at h
            subst h
            decide
    · have hb62 : (utf8FirstByte c == 62) = false := by
        rw [beq_eq_false_iff_ne]
        intro hh
        exact h62 ((utf8FirstByte_eq_ascii_iff c 62 (by omega) '>' (by decide)).mp hh)
      have hb47 : (utf8FirstByte c == 47) = false := by
        rw [beq_eq_false_iff_ne]
        intro hh
        exact h47 ((utf8FirstByte_eq_ascii_iff c 47 (by omega) '/' (by decide)).mp hh)
      rw [if_neg (by rw [hb62]; simp), if_neg (by rw [hb47]; simp)]
      rw [utf8FirstByte_ascii c hascii, Char.ofNat_toNat]
      constructor
      · intro h; exact Or.inl h
      · rintro (h | h | ⟨h, _⟩)
        · exact h
        · exact absurd h h62
        · exact absurd h h47

/-- Witness for C8: `<div>` is recognized as markup start. -/
theorem C8_markup_start_condition_witness :
    isJSXStart (newLexer (("<div>").toList)) = true :=
  ((C8_markup_start_condition).1 (newLexer (("<div>").toList)) 'd' (("iv>").toList)
    (by decide) (by decide)).mpr (Or.inl (by decide))

/-- Counterexample to C8 as stated: the claim says `<` followed by `/` and
an identifier (a closing tag) is recognized as markup start, but
`isJSXStart` returns false on `</d>` — the whole text, closing tag
included, stays one host-code token. -/
theorem C8_closing_tag_counterexample :
    claimJSXStart (("</d>").toList) = true ∧
    isJSXStart (newLexer (("</d>").toList)) = false ∧
    (nextToken (newLexer (("</d> x").toList))).1 =
      ⟨.GO_CODE, ("</d> x").toList, 0, 1, 1⟩ := by
  refine ⟨by decide, by decide, by decide⟩

/-- Characterization of the backward-search loop of
`TargetPositionFromSource`: starting at counter `c ≤ col` it returns the
offset-adjusted position of the largest mapped column `k` with `1 ≤ k ≤ c`
and `col - k ≤ 4`, and nothing otherwise. -/
theorem tpfsLoop_spec (m : SMEntries) (line col : Nat) :
    ∀ c, c ≤ col → ∀ q,
      (tpfsLoop m line col c = some q ↔
        ∃ k p, 1 ≤ k ∧ k ≤ c ∧ col - k ≤ 4 ∧ smLookup m line k = some p ∧
          q = ⟨p.line, p.column + (col - k)⟩ ∧
          ∀ j, k < j → j ≤ c → smLookup m line j = none) := by
  intro c
  induction c with
  | zero =>
    intro _ q
    constructor
    · intro h; simp [tpfsLoop] at h
    · rintro ⟨k, p, hk1, hk0, _⟩; omega
  | succ c ih =>
    intro hc q
    by_cases hwin : col - (c + 1) < 5
    · cases hlk : smLookup m line (c + 1) with
      | some p0 =>
        constructor
        · intro h
          rw [tpfsLoop, if_pos hwin, hlk] at h
          refine ⟨c + 1, p0, by omega, le_refl _, by omega, hlk,
            (Option.some.inj h).symm, ?_⟩
          intro j hj1 hj2
          exact absurd hj2 (by omega)
        · rintro ⟨k, p, hk1, hkc, hkw, hlkk, hq, hnone⟩
          have hk : k = c + 1 := by
            by_contra hne
            have := hnone (c + 1) (by omega) (le_refl _)
            rw [this] at hlk
            exact Option.noConfusion hlk
          subst hk
          rw [tpfsLoop, if_pos hwin, hlkk, hq]
      | none =>
        have heq : tpfsLoop m line col (c + 1) = tpfsLoop m line col c := by
          rw [tpfsLoop, if_pos hwin, hlk]
        rw [heq, ih (by omega) q]
        constructor
        · rintro ⟨k, p, hk1, hkc, hkw, hlkk, hq, hnone⟩
          refine ⟨k, p, hk1, by omega, hkw, hlkk, hq, ?_⟩
          intro j hj1 hj2
          by_cases hj : j ≤ c
          · exact hnone j hj1 hj
          · have : j = c + 1 := by omega
            subst this
            exact hlk
        · rintro ⟨k, p, hk1, hkc, hkw, hlkk, hq, hnone⟩
          have hkc' : k ≤ c := by
            by_contra hne
            have : k = c + 1 := by omega
            subst this
            rw [hlkk] at hlk
            exact Option.noConfusion hlk
          exact ⟨k, p, hk1, hkc', hkw, hlkk, hq,
            fun j hj1 hj2 => hnone j hj1 (by omega)⟩
    · have heq : tpfsLoop m line col (c + 1) = none := by
        rw [tpfsLoop, if_neg hwin]
      rw [heq]
      constructor
      · intro h; exact absurd h (by simp)
      · rintro ⟨k, p, hk1, hkc, hkw, _⟩
        exfalso; omega

/-- Claim C6 (amended): an exact forward hit is returned as-is; on a miss
the backward search on the same source line succeeds exactly for the
largest mapped column `k` with `1 ≤ k` and `col - k ≤ 4` (so the window is
four columns, not five, and a mapping stored at column 0 is never found by
the fallback), returning its target offset by `col - k`; otherwise there is
no result, and the lookup never leaves the queried source line. -/
theorem C6_forward_window (sm : SourceMap) (line col : Nat) :
    (∀ p, smLookup sm.sourceToTarget line col = some p →
        TargetPositionFromSource sm line col = some p) ∧
    (smLookup sm.sourceToTarget line col = none →
      ∀ q, TargetPositionFromSource sm line col = some q ↔
        ∃ k p, 1 ≤ k ∧ k ≤ col ∧ col - k ≤ 4 ∧
          smLookup sm.sourceToTarget line k = some p ∧
          q = ⟨p.line, p.column + (col - k)⟩ ∧
          ∀ j, k < j → j ≤ col → smLookup sm.sourceToTarget line j = none) := by
  refine ⟨fun p h => TargetPositionFromSource_exact h, fun hnone q => ?_⟩
  unfold TargetPositionFromSource
  cases hline : smHasLine sm.sourceToTarget line with
  | true =>
    rw [hnone]
    simpa using tpfsLoop_spec sm.sourceToTarget line col col (le_refl col) q
  | false =>
    simp only [Bool.false_eq_true, if_false]
    constructor
    · intro h; exact absurd h (by simp)
    · rintro ⟨k, p, _, _, _, hlkk, _⟩
      rw [smHasLine_of_lookup hlkk] at hline
      exact Bool.noConfusion hline

/-- Witness for C6: with the single mapping (0,2) → (7,7), querying source
(0,4) falls back two columns and returns (7,9). -/
theorem C6_forward_window_witness :
    TargetPositionFromSource (AddMapping NewSourceMap 0 2 7 7) 0 4 = some ⟨7, 9⟩ :=
  ((C6_forward_window (AddMapping NewSourceMap 0 2 7 7) 0 4).2 (by decide) ⟨7, 9⟩).mpr
    ⟨2, ⟨7, 7⟩, by decide, by decide, by decide, by decide, rfl, by
      intro j h1 h2
      interval_cases j <;> decide⟩

/-- Counterexample to C6 as stated: with the single mapping (0,0) → (5,5),
the query (0,3) has a mapped column 0 on the same line within the claimed
5-column backward window, yet the lookup reports no result (the loop's
`c > 0` bound excludes column 0). -/
theorem C6_column_zero_counterexample :
    smLookup (AddMapping NewSourceMap 0 0 5 5).sourceToTarget 0 0 = some ⟨5, 5⟩ ∧
    (0 : Nat) < 3 ∧ (3 : Nat) - 0 ≤ 5 ∧
    TargetPositionFromSource (AddMapping NewSourceMap 0 0 5 5) 0 3 = none := by
  refine ⟨by decide, by decide, by decide, by decide⟩

end Gox
